import Mathlib

/-!
# STM8s Serial library: a shallow embedding of `stm8s_serial.c`

The driver keeps five static variables (`serial_started`, `rx_buffer`,
`rx_buffer_head`, `rx_buffer_tail`, `rx_timeout`).  They are the first five
fields of `Serial`; the remaining fields record what the driver does to its
collaborators (the UART1 peripheral, the GPIO pins, the clock gate, the
millisecond clock), whose sources are not part of the library.

Machine integers are natural numbers with explicit reductions: `% 256` for
`uint8_t`, `% 4294967296` for `uint32_t`.  Memory reached through a pointer
argument is a function from the element index to the stored byte.
-/

namespace STM8sSerial

/-! ## Build-time constants (stm8s_serial.h) -/

/-- Default value of the macro `RX_BUFFER_SIZE` (`#ifndef RX_BUFFER_SIZE`).  Every
function that mentions the macro takes the capacity as its first argument. -/
def RX_BUFFER_SIZE : Nat := 128

/-! ## Peripheral collaborators -/

/-- Word lengths of `UART1_WordLength_TypeDef`. -/
inductive UART1_WordLength where
  | UART1_WORDLENGTH_8D
  | UART1_WORDLENGTH_9D
  deriving DecidableEq, Repr

/-- Stop bit settings of `UART1_StopBits_TypeDef`. -/
inductive UART1_StopBits where
  | UART1_STOPBITS_1
  | UART1_STOPBITS_0_5
  | UART1_STOPBITS_2
  | UART1_STOPBITS_1_5
  deriving DecidableEq, Repr

/-- Parity settings of `UART1_Parity_TypeDef`. -/
inductive UART1_Parity where
  | UART1_PARITY_NO
  | UART1_PARITY_EVEN
  | UART1_PARITY_ODD
  deriving DecidableEq, Repr

/-- Pin modes handed to `GPIO_Init` by the driver. -/
inductive GPIO_Mode where
  | GPIO_MODE_IN_FL_NO_IT
  | GPIO_MODE_IN_PU_NO_IT
  | GPIO_MODE_OUT_PP_HIGH_FAST
  deriving DecidableEq, Repr

/-- Arguments of the last `UART1_Init` call (synchronous mode is always
`UART1_SYNCMODE_CLOCK_DISABLE` and the mode always `UART1_MODE_TXRX_ENABLE`). -/
structure UART1_Config where
  baudRate : Nat
  wordLength : UART1_WordLength
  stopBits : UART1_StopBits
  parity : UART1_Parity
  deriving DecidableEq, Repr

/-! ## State -/

/-- The static variables of `stm8s_serial.c` followed by the observable state of
the collaborators. -/
structure Serial where
  /-- Static `bool serial_started`. -/
  serial_started : Bool
  /-- Static `uint8_t rx_buffer[RX_BUFFER_SIZE]`, slot index to stored byte. -/
  rx_buffer : Nat → Nat
  /-- Static `uint8_t rx_buffer_head`. -/
  rx_buffer_head : Nat
  /-- Static `uint8_t rx_buffer_tail`. -/
  rx_buffer_tail : Nat
  /-- Static `uint8_t rx_timeout`. -/
  rx_timeout : Nat
  /-- Configuration applied by `UART1_Init` since the last `UART1_DeInit`. -/
  uart1_init : Option UART1_Config
  /-- Whether `UART1_ITConfig(UART1_IT_RXNE, ENABLE)` is in force. -/
  uart1_it_rxne : Bool
  /-- Last argument of `UART1_Cmd`. -/
  uart1_cmd : Bool
  /-- Last argument of `CLK_PeripheralClockConfig(CLK_PERIPHERAL_UART1, _)`. -/
  clk_uart1 : Bool
  /-- Mode of pin `TX` (GPIOD pin 5). -/
  gpio_tx : GPIO_Mode
  /-- Mode of pin `RX` (GPIOD pin 6). -/
  gpio_rx : GPIO_Mode
  /-- Whether `Utils_init` has been called. -/
  utils_init : Bool
  /-- Global interrupt mask: `enableInterrupts` sets it, `disableInterrupts` clears it. -/
  interrupts : Bool
  /-- Bytes handed to `UART1_SendData8`, oldest first. -/
  sent : List Nat
  /-- Number of calls of `millis` made so far. -/
  millis_calls : Nat

/-- State at reset: the initialisers of the static variables
(`static uint8_t rx_timeout = 1000;` stores the initialiser in eight bits), an
unconfigured peripheral and nothing sent. -/
def Serial.init : Serial where
  serial_started := false
  rx_buffer := fun _ => 0
  rx_buffer_head := 0
  rx_buffer_tail := 0
  rx_timeout := 1000 % 256
  uart1_init := none
  uart1_it_rxne := false
  uart1_cmd := false
  clk_uart1 := false
  gpio_tx := GPIO_Mode.GPIO_MODE_IN_FL_NO_IT
  gpio_rx := GPIO_Mode.GPIO_MODE_IN_FL_NO_IT
  utils_init := false
  interrupts := false
  sent := []
  millis_calls := 0

/-- Assignment `m[i] = v` through a pointer or into an array. -/
def store (m : Nat → Nat) (i v : Nat) : Nat → Nat :=
  fun j => if j = i then v else m j

/-! ## Interrupt handler -/

/-- Handler `UART1_RX_IRQHandler`; `rx` is the byte `UART1_ReceiveData8()` would
return.  The two calls that clear the pending bit and the flag `RXNE` act on
peripheral status bits only, which the state does not record. -/
def UART1_RX_IRQHandler (C : Nat) (rx : Nat) (s : Serial) : Serial :=
  let i := ((s.rx_buffer_tail + 1) % 256 % C) % 256
  if i ≠ s.rx_buffer_head then
    { s with rx_buffer := store s.rx_buffer s.rx_buffer_tail rx, rx_buffer_tail := i }
  else s

/-! ## Lifecycle -/

/-- Collaborator `CLK_PeripheralClockConfig(CLK_PERIPHERAL_UART1, NewState)`. -/
def CLK_PeripheralClockConfig (newState : Bool) (s : Serial) : Serial :=
  { s with clk_uart1 := newState }

/-- Collaborator `disableInterrupts()`. -/
def disableInterrupts (s : Serial) : Serial :=
  { s with interrupts := false }

/-- Collaborator `enableInterrupts()`. -/
def enableInterrupts (s : Serial) : Serial :=
  { s with interrupts := true }

/-- Collaborator `Utils_init()`. -/
def Utils_init (s : Serial) : Serial :=
  { s with utils_init := true }

/-- Collaborator `GPIO_Init(TX, mode)`. -/
def GPIO_Init_TX (mode : GPIO_Mode) (s : Serial) : Serial :=
  { s with gpio_tx := mode }

/-- Collaborator `GPIO_Init(RX, mode)`. -/
def GPIO_Init_RX (mode : GPIO_Mode) (s : Serial) : Serial :=
  { s with gpio_rx := mode }

/-- Collaborator `UART1_DeInit()`: the configuration registers return to their
reset values. -/
def UART1_DeInit (s : Serial) : Serial :=
  { s with uart1_init := none, uart1_it_rxne := false }

/-- Collaborator `UART1_Init(baudRate, wordLength, stopBits, parity,
UART1_SYNCMODE_CLOCK_DISABLE, UART1_MODE_TXRX_ENABLE)`. -/
def UART1_Init (baudRate : Nat) (wordLength : UART1_WordLength)
    (stopBits : UART1_StopBits) (parity : UART1_Parity) (s : Serial) : Serial :=
  { s with uart1_init := some ⟨baudRate, wordLength, stopBits, parity⟩ }

/-- Collaborator `UART1_ITConfig(UART1_IT_RXNE, NewState)`. -/
def UART1_ITConfig_RXNE (newState : Bool) (s : Serial) : Serial :=
  { s with uart1_it_rxne := newState }

/-- Collaborator `UART1_Cmd(NewState)`. -/
def UART1_Cmd (newState : Bool) (s : Serial) : Serial :=
  { s with uart1_cmd := newState }

/-- Function `Serial_begin_custom`, statement by statement.  The call of
`UART1_Init` passes the constants written in the source, not the parameters. -/
def Serial_begin_custom (baudRate : Nat) (_wordLength : UART1_WordLength)
    (_stopBits : UART1_StopBits) (_parity : UART1_Parity) (s : Serial) : Serial :=
  let s := CLK_PeripheralClockConfig true s
  let s := disableInterrupts s
  let s := Utils_init s
  let s := GPIO_Init_TX GPIO_Mode.GPIO_MODE_OUT_PP_HIGH_FAST s
  let s := GPIO_Init_RX GPIO_Mode.GPIO_MODE_IN_PU_NO_IT s
  let s := UART1_DeInit s
  let s := UART1_Init baudRate UART1_WordLength.UART1_WORDLENGTH_8D
    UART1_StopBits.UART1_STOPBITS_1 UART1_Parity.UART1_PARITY_NO s
  let s := UART1_ITConfig_RXNE true s
  let s := enableInterrupts s
  let s := UART1_Cmd true s
  { s with serial_started := true }

/-- Function `Serial_begin`. -/
def Serial_begin (baudRate : Nat) (s : Serial) : Serial :=
  Serial_begin_custom baudRate UART1_WordLength.UART1_WORDLENGTH_8D
    UART1_StopBits.UART1_STOPBITS_1 UART1_Parity.UART1_PARITY_NO s

/-- Function `Serial_end`, statement by statement. -/
def Serial_end (s : Serial) : Serial :=
  let s := disableInterrupts s
  let s := UART1_Cmd false s
  let s := UART1_DeInit s
  let s := GPIO_Init_TX GPIO_Mode.GPIO_MODE_IN_FL_NO_IT s
  let s := GPIO_Init_RX GPIO_Mode.GPIO_MODE_IN_FL_NO_IT s
  let s := CLK_PeripheralClockConfig false s
  let s := { s with serial_started := false }
  enableInterrupts s

/-! ## Timeout -/

/-- Function `Serial_setTimeout`: the `uint16_t` argument is stored in the
`uint8_t` variable `rx_timeout`. -/
def Serial_setTimeout (timeout : Nat) (s : Serial) : Serial :=
  { s with rx_timeout := timeout % 256 }

/-- Function `Serial_getTimeout`. -/
def Serial_getTimeout (s : Serial) : Nat :=
  s.rx_timeout

/-! ## Receive path -/

/-- Function `Serial_available`: the sum is formed in `int`, cast to `uint8_t`
and reduced modulo the capacity. -/
def Serial_available (C : Nat) (s : Serial) : Int :=
  if !s.serial_started then -1
  else (((C : Int) + s.rx_buffer_tail - s.rx_buffer_head) % 256) % C

/-- Difference `a - b` of two `uint32_t` values. -/
def sub32 (a b : Nat) : Nat :=
  (a % 4294967296 + 4294967296 - b % 4294967296) % 4294967296

/-- Poll loop of `Serial_read`.  `clk n` is the value returned by the `n`-th call
of `millis`; the first argument bounds the number of iterations, and `none`
means the bound was reached while the loop was still running. -/
def Serial_read_loop (C : Nat) (clk : Nat → Nat) (start : Nat) :
    Nat → Serial → Option (Int × Serial)
  | 0, _ => none
  | fuel + 1, s =>
    let now := clk s.millis_calls
    let s1 := { s with millis_calls := s.millis_calls + 1 }
    if sub32 now start < s1.rx_timeout then
      if s1.rx_buffer_head ≠ s1.rx_buffer_tail then
        let c := s1.rx_buffer s1.rx_buffer_head
        some ((c : Int),
          { s1 with rx_buffer_head := ((s1.rx_buffer_head + 1) % 256 % C) % 256 })
      else Serial_read_loop C clk start fuel s1
    else some (-1, s1)

/-- Function `Serial_read`. -/
def Serial_read (C : Nat) (clk : Nat → Nat) (fuel : Nat) (s : Serial) :
    Option (Int × Serial) :=
  if !s.serial_started then some (-1, s)
  else
    let start := clk s.millis_calls
    Serial_read_loop C clk start fuel { s with millis_calls := s.millis_calls + 1 }

/-- Value of a plain `char` with bit pattern `bits` after promotion to `int`.
Whether plain `char` is signed is a compiler setting, so it is a parameter. -/
def char_to_int (char_signed : Bool) (bits : Nat) : Int :=
  if char_signed && decide (128 ≤ bits % 256) then (bits % 256 : Nat) - 256 else (bits % 256 : Nat)

/-- Conversion of an `int` to an eight-bit object (`uint8_t` or `char`): the low
eight bits. -/
def to_u8 (r : Int) : Nat :=
  (r % 256).toNat

/-- Loop `for (; i<len; i++)` of `Serial_readBytes`, with `n = len - i`
iterations left.  The element `data[i]` is a `uint8_t`, promoted to `int` for the
comparison with `-1`. -/
def Serial_readBytes_loop (C : Nat) (clk : Nat → Nat) (fuel : Nat) (len : Nat) :
    Nat → Nat → (Nat → Nat) → Serial → Option (Int × Serial × (Nat → Nat))
  | 0, _, data, s => some ((len : Int), s, data)
  | n + 1, i, data, s =>
    match Serial_read C clk fuel s with
    | none => none
    | some (r, s1) =>
      let data1 := store data i (to_u8 r)
      if ((data1 i : Nat) : Int) = -1 then some ((i : Int), s1, data1)
      else Serial_readBytes_loop C clk fuel len n (i + 1) data1 s1

/-- Function `Serial_readBytes`; the result carries the caller's buffer. -/
def Serial_readBytes (C : Nat) (clk : Nat → Nat) (fuel : Nat) (data : Nat → Nat)
    (len : Nat) (s : Serial) : Option (Int × Serial × (Nat → Nat)) :=
  if !s.serial_started then some (-1, s, data)
  else Serial_readBytes_loop C clk fuel len len 0 data s

/-- Loop of `Serial_readBytesUntil`, with `n = len - i` iterations left;
`character` is the bit pattern of the `char` argument. -/
def Serial_readBytesUntil_loop (C : Nat) (clk : Nat → Nat) (fuel : Nat) (len : Nat)
    (character : Nat) :
    Nat → Nat → (Nat → Nat) → Serial → Option (Int × Serial × (Nat → Nat))
  | 0, _, data, s => some ((len : Int), s, data)
  | n + 1, i, data, s =>
    match Serial_read C clk fuel s with
    | none => none
    | some (r, s1) =>
      let data1 := store data i (to_u8 r)
      if ((data1 i : Nat) : Int) = -1 then some ((i : Int), s1, data1)
      else if data1 i = character % 256 then some ((i : Int) + 1, s1, data1)
      else Serial_readBytesUntil_loop C clk fuel len character n (i + 1) data1 s1

/-- Function `Serial_readBytesUntil`. -/
def Serial_readBytesUntil (C : Nat) (clk : Nat → Nat) (fuel : Nat) (data : Nat → Nat)
    (len : Nat) (character : Nat) (s : Serial) : Option (Int × Serial × (Nat → Nat)) :=
  if !s.serial_started then some (-1, s, data)
  else Serial_readBytesUntil_loop C clk fuel len character len 0 data s

/-- Function `Serial_readString`. -/
def Serial_readString (C : Nat) (clk : Nat → Nat) (fuel : Nat) (str : Nat → Nat)
    (len : Nat) (s : Serial) : Option (Int × Serial × (Nat → Nat)) :=
  Serial_readBytesUntil C clk fuel str len 0 s

/-- Loop of `Serial_readStringUntil`, with `n = len - i` iterations left.  The
elements of `str` are plain `char`; they are kept as bit patterns and promoted
with `char_to_int` where the source compares them. -/
def Serial_readStringUntil_loop (char_signed : Bool) (C : Nat) (clk : Nat → Nat)
    (fuel : Nat) (len : Nat) (character : Nat) :
    Nat → Nat → (Nat → Nat) → Serial → Option (Int × Serial × (Nat → Nat))
  | 0, _, str, s => some ((len : Int), s, str)
  | n + 1, i, str, s =>
    match Serial_read C clk fuel s with
    | none => none
    | some (r, s1) =>
      let str1 := store str i (to_u8 r)
      if char_to_int char_signed (str1 i) = -1 then some ((i : Int), s1, str1)
      else if char_to_int char_signed (str1 i) = 0
          ∨ char_to_int char_signed (str1 i) = char_to_int char_signed character then
        some ((i : Int) + 1, s1, str1)
      else Serial_readStringUntil_loop char_signed C clk fuel len character n (i + 1) str1 s1

/-- Function `Serial_readStringUntil`. -/
def Serial_readStringUntil (char_signed : Bool) (C : Nat) (clk : Nat → Nat)
    (fuel : Nat) (str : Nat → Nat) (len : Nat) (character : Nat) (s : Serial) :
    Option (Int × Serial × (Nat → Nat)) :=
  if !s.serial_started then some (-1, s, str)
  else Serial_readStringUntil_loop char_signed C clk fuel len character len 0 str s

/-! ## Transmit path -/

/-- Function `Serial_write`: the byte is handed to `UART1_SendData8`; the wait
for the flag `UART1_FLAG_TXE` changes nothing the driver can observe. -/
def Serial_write (data : Nat) (s : Serial) : Serial :=
  if !s.serial_started then s
  else { s with sent := s.sent ++ [data % 256] }

/-- Loop `for (; i<len; i++) Serial_write(data[i])` of `Serial_print`, with `n`
iterations left. -/
def Serial_print_loop (data : Nat → Nat) : Nat → Nat → Serial → Serial
  | 0, _, s => s
  | n + 1, i, s => Serial_print_loop data n (i + 1) (Serial_write (data i) s)

/-- Function `Serial_print`. -/
def Serial_print (data : Nat → Nat) (len : Nat) (s : Serial) : Serial :=
  if !s.serial_started then s
  else Serial_print_loop data len 0 s

/-- The string literal `"\n"` of `Serial_println`: a line feed and the
terminating NUL. -/
def newline_literal : Nat → Nat :=
  fun i => if i = 0 then 10 else 0

/-- Function `Serial_println`. -/
def Serial_println (data : Nat → Nat) (len : Nat) (s : Serial) : Serial :=
  Serial_print newline_literal 2 (Serial_print data len s)

/-- Ways in which a run of a print function can fail to complete. -/
inductive Fault where
  /-- The iteration bound was reached while a loop was still running. -/
  | out_of_fuel
  /-- An index outside the ten-element local `buffer` was used. -/
  | out_of_bounds
  deriving DecidableEq, Repr

/-- Loop `while(data > 0) { buffer[n] = data%10 + '0'; data /= 10; n++; }`, the
same text in `Serial_print_int` (`long data`) and `Serial_print_uint`
(`uint32_t data`); `buffer` is the local `char buffer[10]`. -/
def digits_loop : Nat → Int → (Nat → Nat) → Nat → Except Fault ((Nat → Nat) × Nat)
  | fuel, data, buffer, n =>
    if data > 0 then
      match fuel with
      | 0 => Except.error Fault.out_of_fuel
      | fuel + 1 =>
        if n < 10 then
          digits_loop fuel (Int.tdiv data 10) (store buffer n (to_u8 (Int.tmod data 10 + 48))) (n + 1)
        else Except.error Fault.out_of_bounds
    else Except.ok (buffer, n)

/-- Loop `while(n > 0) { Serial_write(buffer[n-1]); n--; }`. -/
def emit_loop (buffer : Nat → Nat) : Nat → Serial → Except Fault Serial
  | 0, s => Except.ok s
  | n + 1, s =>
    if n < 10 then emit_loop buffer n (Serial_write (buffer n) s)
    else Except.error Fault.out_of_bounds

/-- Function `Serial_print_int`; `buffer` is the content of the uninitialised
local array at entry. -/
def Serial_print_int (fuel : Nat) (buffer : Nat → Nat) (data : Int) (s : Serial) :
    Except Fault Serial :=
  let s1 := if data = 0 then Serial_write 48 s
    else if data < 0 then Serial_write 45 s
    else s
  match digits_loop fuel data buffer 0 with
  | Except.error e => Except.error e
  | Except.ok (buffer1, n) =>
    match emit_loop buffer1 n s1 with
    | Except.error e => Except.error e
    | Except.ok s2 => Except.ok (Serial_write 0 s2)

/-- Function `Serial_print_uint`. -/
def Serial_print_uint (fuel : Nat) (buffer : Nat → Nat) (data : Nat) (s : Serial) :
    Except Fault Serial :=
  let s1 := if data = 0 then Serial_write 48 s else s
  match digits_loop fuel (data : Int) buffer 0 with
  | Except.error e => Except.error e
  | Except.ok (buffer1, n) =>
    match emit_loop buffer1 n s1 with
    | Except.error e => Except.error e
    | Except.ok s2 => Except.ok (Serial_write 0 s2)

/-! ## Abstract views used by the statements -/

/-- Unread-byte count of the data model: `(C + tail - head) mod C`. -/
def unread_count (C : Nat) (s : Serial) : Nat :=
  (C + s.rx_buffer_tail - s.rx_buffer_head) % C

/-- The unread bytes, oldest first: the slots `head`, `head + 1`, ... up to but
excluding `tail`, indices taken modulo the capacity. -/
def unread (C : Nat) (s : Serial) : List Nat :=
  (List.range (unread_count C s)).map (fun i => s.rx_buffer ((s.rx_buffer_head + i) % C))

/-- The first `n` elements of a caller's buffer. -/
def buffer_take (data : Nat → Nat) (n : Nat) : List Nat :=
  (List.range n).map data

/-- The state a successful `Serial_read` leaves behind. -/
def popped (C : Nat) (s : Serial) : Serial :=
  { s with
    millis_calls := s.millis_calls + 2
    rx_buffer_head := ((s.rx_buffer_head + 1) % 256 % C) % 256 }

/-- Pushing a list of bytes, one handler invocation per byte. -/
def push_all (C : Nat) : List Nat → Serial → Serial
  | [], s => s
  | b :: bs, s => push_all C bs (UART1_RX_IRQHandler C b s)

/-- One step of a schedule: an invocation of the receive handler delivering a
byte, or a call of `Serial_read`. -/
inductive Event where
  | push (b : Nat)
  | pop
  deriving DecidableEq, Repr

/-- Runs a schedule on the driver and collects the values `Serial_read` returned. -/
def run_schedule (C : Nat) (clk : Nat → Nat) (fuel : Nat) :
    List Event → Serial → Option (List Int × Serial)
  | [], s => some ([], s)
  | Event.push b :: es, s => run_schedule C clk fuel es (UART1_RX_IRQHandler C b s)
  | Event.pop :: es, s =>
    match Serial_read C clk fuel s with
    | none => none
    | some (r, s1) =>
      match run_schedule C clk fuel es s1 with
      | none => none
      | some (rs, s2) => some (r :: rs, s2)

/-- The abstract FIFO queue holding at most `cap` bytes: a push appends at the
back, a pop removes the front.  The result is `none` when the schedule pushes
into a queue that already holds `cap` bytes or pops an empty queue; otherwise it
is the popped bytes, in order, and the final queue. -/
def fifo_run (cap : Nat) : List Event → List Nat → Option (List Nat × List Nat)
  | [], q => some ([], q)
  | Event.push b :: es, q => if q.length < cap then fifo_run cap es (q ++ [b]) else none
  | Event.pop :: _, [] => none
  | Event.pop :: es, x :: q =>
    match fifo_run cap es q with
    | none => none
    | some (outs, r) => some (x :: outs, r)

/-- The bytes a schedule pushes, in order. -/
def pushed : List Event → List Nat
  | [] => []
  | Event.push b :: es => b :: pushed es
  | Event.pop :: es => pushed es

/-- The number of reads in a schedule. -/
def pops : List Event → Nat
  | [] => 0
  | Event.push _ :: es => pops es
  | Event.pop :: es => pops es + 1

/-- The next `n` calls of `Serial_read` each find the first clock sample of
their poll loop inside the timeout window (each call samples the clock twice:
once for `start`, once in the loop condition). -/
def reads_in_time (clk : Nat → Nat) (s : Serial) (n : Nat) : Prop :=
  ∀ j, j < n →
    sub32 (clk (s.millis_calls + 2 * j + 1)) (clk (s.millis_calls + 2 * j)) < s.rx_timeout

/-! ## Example states -/

/-- A started channel that received the byte `0x41` during its session. -/
def stale_session : Serial :=
  UART1_RX_IRQHandler RX_BUFFER_SIZE 65 (Serial_begin 9600 Serial.init)

/-- A clock that advances by one millisecond between consecutive samples. -/
def tick_clock : Nat → Nat :=
  fun n => n

/-- A schedule that interleaves three pushes with three reads. -/
def sample_schedule : List Event :=
  [Event.push 1, Event.push 2, Event.pop, Event.push 3, Event.pop, Event.pop]

/-- A started channel whose unread bytes are `a`, `b`, line feed, `c`. -/
def line_session : Serial :=
  push_all RX_BUFFER_SIZE [97, 98, 10, 99] (Serial_begin 9600 Serial.init)

/-- A clock that advances by 100 milliseconds between consecutive samples. -/
def coarse_clock : Nat → Nat :=
  fun n => 100 * n

/-- A freshly started channel. -/
def fresh_session : Serial :=
  Serial_begin 9600 Serial.init

/-- A started channel whose unread bytes are `0xFF`, `A`, NUL. -/
def ff_session : Serial :=
  push_all RX_BUFFER_SIZE [255, 65, 0] (Serial_begin 9600 Serial.init)

/-- A channel built with `RX_BUFFER_SIZE` defined as 200 that has received 100
bytes since it was started. -/
def wide_session : Serial :=
  push_all 200 (List.range 100) (Serial_begin 9600 Serial.init)

/-! ## Further abstract views -/

/-- The ASCII decimal string of a natural number, most significant digit first:
the single character `0` for zero, otherwise its decimal digits. -/
def decimal_ascii (v : Nat) : List Nat :=
  if v = 0 then [48] else (Nat.digits 10 v).reverse.map (fun d => d + 48)

/-- The number a string of ASCII decimal digits denotes. -/
def parse_decimal (cs : List Nat) : Nat :=
  cs.foldl (fun acc c => 10 * acc + (c - 48)) 0

/-- The index invariant of the ring buffer: `head` and `tail` are below the
capacity. -/
@[reducible] def index_ok (C : Nat) (s : Serial) : Prop :=
  s.rx_buffer_head < C ∧ s.rx_buffer_tail < C

/-! ## Basic facts about the ring buffer (capacity 128) -/

theorem sub32_tick (n : Nat) :
    sub32 (tick_clock (n + 1)) (tick_clock n) = 1 := by
  unfold sub32 tick_clock
  omega

theorem unread_length (C : Nat) (s : Serial) :
    (unread C s).length = unread_count C s := by
  simp [unread]

/-- A push into a buffer that is not full appends the byte to the unread bytes. -/
theorem handler_push (b : Nat) (s : Serial)
    (hh : s.rx_buffer_head < RX_BUFFER_SIZE) (ht : s.rx_buffer_tail < RX_BUFFER_SIZE)
    (hroom : unread_count RX_BUFFER_SIZE s < RX_BUFFER_SIZE - 1) :
    unread RX_BUFFER_SIZE (UART1_RX_IRQHandler RX_BUFFER_SIZE b s)
        = unread RX_BUFFER_SIZE s ++ [b]
      ∧ (UART1_RX_IRQHandler RX_BUFFER_SIZE b s).rx_buffer_head = s.rx_buffer_head
      ∧ (UART1_RX_IRQHandler RX_BUFFER_SIZE b s).rx_buffer_tail < RX_BUFFER_SIZE
      ∧ (UART1_RX_IRQHandler RX_BUFFER_SIZE b s).serial_started = s.serial_started
      ∧ (UART1_RX_IRQHandler RX_BUFFER_SIZE b s).rx_timeout = s.rx_timeout
      ∧ (UART1_RX_IRQHandler RX_BUFFER_SIZE b s).millis_calls = s.millis_calls := by
  simp only [RX_BUFFER_SIZE, unread_count] at *
  have hne : ((s.rx_buffer_tail + 1) % 256 % 128) % 256 ≠ s.rx_buffer_head := by omega
  simp only [UART1_RX_IRQHandler, hne, ne_eq, not_false_eq_true, if_true]
  refine ⟨?_, trivial, by omega, trivial, trivial, trivial⟩
  simp only [unread, unread_count]
  have hc : (128 + ((s.rx_buffer_tail + 1) % 256 % 128) % 256 - s.rx_buffer_head) % 128
      = (128 + s.rx_buffer_tail - s.rx_buffer_head) % 128 + 1 := by omega
  rw [hc, List.range_succ, List.map_append]
  congr 1
  · apply List.map_congr_left
    intro i hi
    have hi2 : i < (128 + s.rx_buffer_tail - s.rx_buffer_head) % 128 := List.mem_range.mp hi
    have : (s.rx_buffer_head + i) % 128 ≠ s.rx_buffer_tail := by omega
    simp [store, this]
  · have : (s.rx_buffer_head + (128 + s.rx_buffer_tail - s.rx_buffer_head) % 128) % 128
        = s.rx_buffer_tail := by omega
    simp [store, this]

/-- A push into a full buffer changes nothing. -/
theorem handler_full (b : Nat) (s : Serial) (hh : s.rx_buffer_head < RX_BUFFER_SIZE)
    (hfull : unread_count RX_BUFFER_SIZE s = RX_BUFFER_SIZE - 1) :
    UART1_RX_IRQHandler RX_BUFFER_SIZE b s = s := by
  simp only [RX_BUFFER_SIZE, unread_count] at *
  have he : ((s.rx_buffer_tail + 1) % 256 % 128) % 256 = s.rx_buffer_head := by omega
  simp [UART1_RX_IRQHandler, he]

/-- A read of a non-empty buffer whose first poll is inside the window returns the
byte at `head` and leaves `popped`. -/
theorem read_pop (clk : Nat → Nat) (fuel : Nat) (C : Nat) (s : Serial)
    (hs : s.serial_started = true) (hne : s.rx_buffer_head ≠ s.rx_buffer_tail)
    (hclk : sub32 (clk (s.millis_calls + 1)) (clk s.millis_calls) < s.rx_timeout) :
    Serial_read C clk (fuel + 1) s
      = some ((s.rx_buffer s.rx_buffer_head : Int), popped C s) := by
  simp [Serial_read, Serial_read_loop, hs, hne, hclk, popped]

/-- Popping removes the first unread byte. -/
theorem unread_popped (s : Serial)
    (hh : s.rx_buffer_head < RX_BUFFER_SIZE) (ht : s.rx_buffer_tail < RX_BUFFER_SIZE)
    (hne : s.rx_buffer_head ≠ s.rx_buffer_tail) :
    unread RX_BUFFER_SIZE s
      = s.rx_buffer s.rx_buffer_head :: unread RX_BUFFER_SIZE (popped RX_BUFFER_SIZE s) := by
  simp only [RX_BUFFER_SIZE, unread, unread_count, popped] at *
  have hc : (128 + s.rx_buffer_tail - s.rx_buffer_head) % 128
      = (128 + s.rx_buffer_tail - ((s.rx_buffer_head + 1) % 256 % 128) % 256) % 128 + 1 := by
    omega
  rw [hc, List.range_succ_eq_map, List.map_cons, List.map_map]
  congr 1
  · simp [Nat.mod_eq_of_lt hh]
  · apply List.map_congr_left
    intro i _
    have : (((s.rx_buffer_head + 1) % 256 % 128) % 256 + i) % 128
        = (s.rx_buffer_head + (i + 1)) % 128 := by omega
    simp [this]

/-- After any number of pushes the unread bytes are the old ones followed by the
pushed ones, cut at `C - 1` bytes, and `head` has not moved. -/
theorem push_all_unread (bs : List Nat) (s : Serial)
    (hh : s.rx_buffer_head < RX_BUFFER_SIZE) (ht : s.rx_buffer_tail < RX_BUFFER_SIZE) :
    unread RX_BUFFER_SIZE (push_all RX_BUFFER_SIZE bs s)
        = (unread RX_BUFFER_SIZE s ++ bs).take (RX_BUFFER_SIZE - 1)
      ∧ (push_all RX_BUFFER_SIZE bs s).rx_buffer_head = s.rx_buffer_head
      ∧ (push_all RX_BUFFER_SIZE bs s).rx_buffer_tail < RX_BUFFER_SIZE
      ∧ (push_all RX_BUFFER_SIZE bs s).serial_started = s.serial_started := by
  induction bs generalizing s with
  | nil =>
    refine ⟨?_, rfl, ht, rfl⟩
    have hl := unread_length RX_BUFFER_SIZE s
    have hc : unread_count RX_BUFFER_SIZE s ≤ RX_BUFFER_SIZE - 1 := by
      simp only [RX_BUFFER_SIZE, unread_count] at *
      omega
    simp only [push_all, List.append_nil]
    exact (List.take_of_length_le (by omega)).symm
  | cons b bs ih =>
    have hl := unread_length RX_BUFFER_SIZE s
    have hc : unread_count RX_BUFFER_SIZE s ≤ RX_BUFFER_SIZE - 1 := by
      simp only [RX_BUFFER_SIZE, unread_count] at *
      omega
    rcases Nat.lt_or_ge (unread_count RX_BUFFER_SIZE s) (RX_BUFFER_SIZE - 1) with hroom | hfull
    · obtain ⟨hu, hhd, htl, hst, _, _⟩ := handler_push b s hh ht hroom
      obtain ⟨i1, i2, i3, i4⟩ := ih (UART1_RX_IRQHandler RX_BUFFER_SIZE b s) (hhd ▸ hh) htl
      refine ⟨?_, ?_, i3, ?_⟩
      · simp only [push_all]
        rw [i1, hu, List.append_assoc, List.singleton_append]
      · simp only [push_all]
        rw [i2, hhd]
      · simp only [push_all]
        rw [i4, hst]
    · have hfull2 : unread_count RX_BUFFER_SIZE s = RX_BUFFER_SIZE - 1 := by omega
      have hsame := handler_full b s hh hfull2
      obtain ⟨i1, i2, i3, i4⟩ := ih s hh ht
      simp only [push_all, hsame]
      refine ⟨?_, i2, i3, i4⟩
      rw [i1, List.take_append_of_le_length (by omega),
        List.take_append_of_le_length (by omega)]

/-- Reading of `Serial_available` on a started channel with indices in range. -/
theorem available_eq_count (s : Serial) (hs : s.serial_started = true)
    (hh : s.rx_buffer_head < RX_BUFFER_SIZE) (ht : s.rx_buffer_tail < RX_BUFFER_SIZE) :
    Serial_available RX_BUFFER_SIZE s = (unread_count RX_BUFFER_SIZE s : Int) := by
  simp only [RX_BUFFER_SIZE, Serial_available, unread_count, hs] at *
  simp only [Bool.not_true, Bool.false_eq_true, if_false]
  omega

/-! ## Capacity and overrun -/

/-- C2: capacity and drop-newest overrun.  From a started channel with an empty
buffer (`head = tail` at any index below 128), after the handler has run once for
each byte of `bs` with no read in between, `Serial_available` returns
`min k 127` for `k` the number of bytes, `head` is unchanged and the unread
bytes are the first `min k 127` bytes of `bs` in order; and an invocation on a
full buffer leaves the whole state (so `head`, `tail` and every stored byte)
unchanged. -/
theorem capacity_drop_newest (bs : List Nat) (s : Serial)
    (hs : s.serial_started = true) (hh : s.rx_buffer_head < RX_BUFFER_SIZE)
    (hempty : s.rx_buffer_head = s.rx_buffer_tail) :
    Serial_available RX_BUFFER_SIZE (push_all RX_BUFFER_SIZE bs s)
        = ((min bs.length (RX_BUFFER_SIZE - 1) : Nat) : Int)
      ∧ (push_all RX_BUFFER_SIZE bs s).rx_buffer_head = s.rx_buffer_head
      ∧ unread RX_BUFFER_SIZE (push_all RX_BUFFER_SIZE bs s)
          = bs.take (min bs.length (RX_BUFFER_SIZE - 1))
      ∧ ∀ (b : Nat) (f : Serial), f.rx_buffer_head < RX_BUFFER_SIZE →
          f.rx_buffer_tail < RX_BUFFER_SIZE →
          (f.rx_buffer_tail + 1) % RX_BUFFER_SIZE = f.rx_buffer_head →
          UART1_RX_IRQHandler RX_BUFFER_SIZE b f = f := by
  have ht : s.rx_buffer_tail < RX_BUFFER_SIZE := hempty ▸ hh
  obtain ⟨hu, hhd, htl, hst⟩ := push_all_unread bs s hh ht
  have h0 : unread RX_BUFFER_SIZE s = [] := by
    have hc : unread_count RX_BUFFER_SIZE s = 0 := by
      simp only [RX_BUFFER_SIZE, unread_count] at *
      omega
    simp [unread, hc]
  rw [h0, List.nil_append] at hu
  have hmin : bs.take (min bs.length (RX_BUFFER_SIZE - 1)) = bs.take (RX_BUFFER_SIZE - 1) := by
    rcases Nat.le_total bs.length (RX_BUFFER_SIZE - 1) with h | h
    · rw [Nat.min_eq_left h, List.take_of_length_le h, List.take_of_length_le (le_refl _)]
    · rw [Nat.min_eq_right h]
  refine ⟨?_, hhd, ?_, ?_⟩
  · rw [available_eq_count _ (hst.trans hs) (hhd ▸ hh) htl, ← unread_length, hu,
      List.length_take, Nat.min_comm]
  · rw [hu, hmin]
  · intro b f fh ft ffull
    apply handler_full b f fh
    simp only [RX_BUFFER_SIZE, unread_count] at *
    omega

/-- C2 at a concrete input: 130 bytes pushed into the freshly started channel. -/
theorem capacity_drop_newest_witness :
    (Serial_begin 9600 Serial.init).serial_started = true
      ∧ Serial_available RX_BUFFER_SIZE
          (push_all RX_BUFFER_SIZE (List.range 130) (Serial_begin 9600 Serial.init))
        = ((min (List.range 130).length (RX_BUFFER_SIZE - 1) : Nat) : Int) :=
  ⟨rfl, (capacity_drop_newest (List.range 130) (Serial_begin 9600 Serial.init) rfl
    (by decide) rfl).1⟩

/-! ## Unread count -/

/-- C3: on a started channel with `head` and `tail` below 128, `Serial_available`
returns `(128 + tail - head) mod 128`, a value between 0 and 127; it is 0 exactly
when `head = tail` and 127 exactly when `(tail + 1) mod 128 = head`. -/
theorem Serial_available_count (s : Serial) (hs : s.serial_started = true)
    (hh : s.rx_buffer_head < RX_BUFFER_SIZE) (ht : s.rx_buffer_tail < RX_BUFFER_SIZE) :
    Serial_available RX_BUFFER_SIZE s
        = (((RX_BUFFER_SIZE + s.rx_buffer_tail - s.rx_buffer_head) % RX_BUFFER_SIZE : Nat) : Int)
      ∧ 0 ≤ Serial_available RX_BUFFER_SIZE s
      ∧ Serial_available RX_BUFFER_SIZE s ≤ (RX_BUFFER_SIZE : Int) - 1
      ∧ (Serial_available RX_BUFFER_SIZE s = 0 ↔ s.rx_buffer_head = s.rx_buffer_tail)
      ∧ (Serial_available RX_BUFFER_SIZE s = (RX_BUFFER_SIZE : Int) - 1
          ↔ (s.rx_buffer_tail + 1) % RX_BUFFER_SIZE = s.rx_buffer_head) := by
  rw [available_eq_count s hs hh ht]
  simp only [RX_BUFFER_SIZE, unread_count] at *
  refine ⟨trivial, ?_, ?_, ?_, ?_⟩ <;> omega

/-- C3 at a concrete input: one unread byte. -/
theorem Serial_available_count_witness :
    stale_session.serial_started = true
      ∧ Serial_available RX_BUFFER_SIZE stale_session
        = (((RX_BUFFER_SIZE + stale_session.rx_buffer_tail - stale_session.rx_buffer_head)
            % RX_BUFFER_SIZE : Nat) : Int) :=
  ⟨rfl, (Serial_available_count stale_session rfl (by decide) (by decide)).1⟩

/-! ## Single read -/

/-- C4: on a started channel with a non-empty buffer (`head ≠ tail`, both below
128) whose first clock sample inside the poll loop is within the timeout (so the
stored timeout is positive), `Serial_read` returns the byte stored at slot
`head`, a value between 0 and 255, sets `head` to `(head + 1) mod 128` and leaves
`tail`, every buffer slot, the started flag and the timeout unchanged.  The
stored byte is a `uint8_t`, hence below 256. -/
theorem Serial_read_pops_head (clk : Nat → Nat) (fuel : Nat) (s : Serial)
    (hs : s.serial_started = true)
    (hh : s.rx_buffer_head < RX_BUFFER_SIZE) (ht : s.rx_buffer_tail < RX_BUFFER_SIZE)
    (hne : s.rx_buffer_head ≠ s.rx_buffer_tail)
    (hbyte : s.rx_buffer s.rx_buffer_head < 256)
    (hclk : sub32 (clk (s.millis_calls + 1)) (clk s.millis_calls) < s.rx_timeout) :
    0 < s.rx_timeout ∧
    ∃ (r : Int) (s1 : Serial), Serial_read RX_BUFFER_SIZE clk (fuel + 1) s = some (r, s1)
      ∧ r = (s.rx_buffer s.rx_buffer_head : Int)
      ∧ 0 ≤ r ∧ r ≤ 255
      ∧ s1.rx_buffer_head = (s.rx_buffer_head + 1) % RX_BUFFER_SIZE
      ∧ s1.rx_buffer_tail = s.rx_buffer_tail
      ∧ s1.rx_buffer = s.rx_buffer
      ∧ s1.serial_started = s.serial_started
      ∧ s1.rx_timeout = s.rx_timeout := by
  refine ⟨by omega, _, _, read_pop clk fuel RX_BUFFER_SIZE s hs hne hclk, rfl, by omega,
    by omega, ?_, rfl, rfl, rfl, rfl⟩
  have _ := hh
  have _ := ht
  simp only [RX_BUFFER_SIZE, popped] at *
  omega

/-- C4 at a concrete input: the channel holding the single byte `0x41`. -/
theorem Serial_read_pops_head_witness :
    stale_session.rx_buffer_head ≠ stale_session.rx_buffer_tail
      ∧ ∃ (r : Int) (s1 : Serial),
          Serial_read RX_BUFFER_SIZE tick_clock (0 + 1) stale_session = some (r, s1)
        ∧ r = (stale_session.rx_buffer stale_session.rx_buffer_head : Int)
        ∧ 0 ≤ r ∧ r ≤ 255
        ∧ s1.rx_buffer_head = (stale_session.rx_buffer_head + 1) % RX_BUFFER_SIZE
        ∧ s1.rx_buffer_tail = stale_session.rx_buffer_tail
        ∧ s1.rx_buffer = stale_session.rx_buffer
        ∧ s1.serial_started = stale_session.serial_started
        ∧ s1.rx_timeout = stale_session.rx_timeout :=
  ⟨by decide, (Serial_read_pops_head tick_clock 0 stale_session rfl (by decide) (by decide)
    (by decide) (by decide) (by decide)).2⟩

/-! ## FIFO ordering -/

theorem popped_fields (s : Serial) :
    (popped RX_BUFFER_SIZE s).rx_buffer_head < RX_BUFFER_SIZE
      ∧ (popped RX_BUFFER_SIZE s).rx_buffer_tail = s.rx_buffer_tail
      ∧ (popped RX_BUFFER_SIZE s).serial_started = s.serial_started
      ∧ (popped RX_BUFFER_SIZE s).rx_timeout = s.rx_timeout
      ∧ (popped RX_BUFFER_SIZE s).millis_calls = s.millis_calls + 2 := by
  refine ⟨?_, rfl, rfl, rfl, rfl⟩
  simp only [RX_BUFFER_SIZE, popped] at *
  omega

theorem reads_in_time_popped (clk : Nat → Nat) (C : Nat) (s : Serial) (n : Nat)
    (h : reads_in_time clk s (n + 1)) : reads_in_time clk (popped C s) n := by
  intro j hj
  have h1 := h (j + 1) (by omega)
  have e1 : s.millis_calls + 2 * (j + 1) + 1 = s.millis_calls + 2 + 2 * j + 1 := by omega
  have e2 : s.millis_calls + 2 * (j + 1) = s.millis_calls + 2 + 2 * j := by omega
  rw [e1, e2] at h1
  exact h1

theorem reads_in_time_first (clk : Nat → Nat) (s : Serial) (n : Nat)
    (h : reads_in_time clk s (n + 1)) :
    sub32 (clk (s.millis_calls + 1)) (clk s.millis_calls) < s.rx_timeout := by
  have h0 := h 0 (by omega)
  simpa using h0

/-- A non-empty list of unread bytes means `head ≠ tail`. -/
theorem unread_cons_ne (C : Nat) (s : Serial) (x : Nat) (q : List Nat)
    (hu : unread C s = x :: q) : s.rx_buffer_head ≠ s.rx_buffer_tail := by
  intro he
  have hl := unread_length C s
  rw [hu] at hl
  simp only [unread_count, List.length_cons] at hl
  rw [← he, Nat.add_sub_cancel, Nat.mod_self] at hl
  omega

/-- One successful read seen through the unread bytes: the front byte is
returned and removed. -/
theorem read_front (clk : Nat → Nat) (fuel : Nat) (s : Serial) (x : Nat) (q : List Nat)
    (hs : s.serial_started = true)
    (hh : s.rx_buffer_head < RX_BUFFER_SIZE) (ht : s.rx_buffer_tail < RX_BUFFER_SIZE)
    (hu : unread RX_BUFFER_SIZE s = x :: q)
    (hclk : sub32 (clk (s.millis_calls + 1)) (clk s.millis_calls) < s.rx_timeout) :
    Serial_read RX_BUFFER_SIZE clk (fuel + 1) s = some ((x : Int), popped RX_BUFFER_SIZE s)
      ∧ unread RX_BUFFER_SIZE (popped RX_BUFFER_SIZE s) = q := by
  have hne := unread_cons_ne RX_BUFFER_SIZE s x q hu
  have hp := unread_popped s hh ht hne
  rw [hu] at hp
  injection hp with hx hq
  rw [read_pop clk fuel RX_BUFFER_SIZE s hs hne hclk, ← hx, ← hq]
  exact ⟨rfl, rfl⟩

/-- What the abstract queue returns: the first `pops` bytes of the initial queue
followed by the pushed bytes, the remainder staying queued. -/
theorem fifo_run_spec (cap : Nat) (evs : List Event) (q0 outs q : List Nat)
    (h : fifo_run cap evs q0 = some (outs, q)) :
    outs = (q0 ++ pushed evs).take (pops evs)
      ∧ q = (q0 ++ pushed evs).drop (pops evs)
      ∧ outs.length = pops evs := by
  induction evs generalizing q0 outs q with
  | nil =>
    simp only [fifo_run, Option.some.injEq, Prod.mk.injEq] at h
    obtain ⟨h1, h2⟩ := h
    simp [pushed, pops, ← h1, ← h2]
  | cons e es ih =>
    cases e with
    | push b =>
      simp only [fifo_run] at h
      split at h
      · have := ih _ _ _ h
        simpa [pushed, pops, List.append_assoc] using this
      · exact absurd h (by simp)
    | pop =>
      cases q0 with
      | nil => simp [fifo_run] at h
      | cons x q1 =>
        simp only [fifo_run] at h
        split at h
        · exact absurd h (by simp)
        · rename_i o r hr
          simp only [Option.some.injEq, Prod.mk.injEq] at h
          obtain ⟨h1, h2⟩ := h
          obtain ⟨i1, i2, i3⟩ := ih _ _ _ hr
          subst h1 h2
          refine ⟨?_, ?_, ?_⟩
          · simp only [pops, pushed, List.cons_append, List.take_succ_cons]
            rw [← i1]
          · simp only [pops, pushed, List.cons_append, List.drop_succ_cons]
            exact i2
          · simp [pops, i3]

/-- The driver simulates the abstract queue, from any state of the ring buffer. -/
theorem run_schedule_simulates (clk : Nat → Nat) (fuel : Nat) (evs : List Event)
    (s : Serial) (q0 outs q : List Nat)
    (hs : s.serial_started = true)
    (hh : s.rx_buffer_head < RX_BUFFER_SIZE) (ht : s.rx_buffer_tail < RX_BUFFER_SIZE)
    (hu : unread RX_BUFFER_SIZE s = q0)
    (hclk : reads_in_time clk s (pops evs))
    (hq : fifo_run (RX_BUFFER_SIZE - 1) evs q0 = some (outs, q)) :
    ∃ s1, run_schedule RX_BUFFER_SIZE clk (fuel + 1) evs s
        = some (outs.map (fun b => (b : Int)), s1)
      ∧ unread RX_BUFFER_SIZE s1 = q := by
  induction evs generalizing s q0 outs q with
  | nil =>
    simp only [fifo_run, Option.some.injEq, Prod.mk.injEq] at hq
    obtain ⟨h1, h2⟩ := hq
    exact ⟨s, by simp [run_schedule, ← h1], by rw [hu, h2]⟩
  | cons e es ih =>
    cases e with
    | push b =>
      simp only [fifo_run] at hq
      split at hq
      · rename_i hlen
        have hroom : unread_count RX_BUFFER_SIZE s < RX_BUFFER_SIZE - 1 := by
          rw [← unread_length, hu]
          exact hlen
        obtain ⟨pu, phd, ptl, pst, pto, pmc⟩ := handler_push b s hh ht hroom
        have hclk2 : reads_in_time clk (UART1_RX_IRQHandler RX_BUFFER_SIZE b s) (pops es) := by
          intro j hj
          rw [pmc, pto]
          exact hclk j hj
        obtain ⟨s1, r1, r2⟩ := ih (UART1_RX_IRQHandler RX_BUFFER_SIZE b s) _ _ _
          (pst.trans hs) (phd ▸ hh) ptl (by rw [pu, hu]) hclk2 hq
        exact ⟨s1, by simpa [run_schedule] using r1, r2⟩
      · exact absurd hq (by simp)
    | pop =>
      cases q0 with
      | nil => simp [fifo_run] at hq
      | cons x q1 =>
        simp only [fifo_run] at hq
        split at hq
        · exact absurd hq (by simp)
        · rename_i o r hr
          simp only [Option.some.injEq, Prod.mk.injEq] at hq
          obtain ⟨h1, h2⟩ := hq
          subst h1 h2
          obtain ⟨rd, ru⟩ := read_front clk fuel s x q1 hs hh ht hu
            (reads_in_time_first clk s (pops es) hclk)
          obtain ⟨p1, p2, p3, _, _⟩ := popped_fields s
          obtain ⟨s1, r1, r2⟩ := ih (popped RX_BUFFER_SIZE s) _ _ _ (p3.trans hs) p1
            (p2 ▸ ht) ru (reads_in_time_popped clk RX_BUFFER_SIZE s (pops es) hclk) hr
          exact ⟨s1, by simp [run_schedule, rd, r1], r2⟩

/-- C1: FIFO ordering at capacity 128.  From a started channel with an empty ring
buffer, for every schedule of handler pushes and `Serial_read` calls that the
abstract queue of 127 places accepts (no push while 127 bytes are unread, no read
of an empty buffer) and in which every read finds its first poll sample inside
the timeout window, the run returns and the values `Serial_read` returned are
exactly what the abstract queue returns; these are the pushed bytes in push
order, one per read, and the bytes left unread are the remaining pushed bytes. -/
theorem fifo_order (clk : Nat → Nat) (fuel : Nat) (evs : List Event) (s : Serial)
    (outs q : List Nat)
    (hs : s.serial_started = true) (hh : s.rx_buffer_head < RX_BUFFER_SIZE)
    (hempty : s.rx_buffer_head = s.rx_buffer_tail)
    (hclk : reads_in_time clk s (pops evs))
    (hq : fifo_run (RX_BUFFER_SIZE - 1) evs [] = some (outs, q)) :
    ∃ s1, run_schedule RX_BUFFER_SIZE clk (fuel + 1) evs s
        = some (outs.map (fun b => (b : Int)), s1)
      ∧ outs = (pushed evs).take (pops evs)
      ∧ outs.length = pops evs
      ∧ unread RX_BUFFER_SIZE s1 = (pushed evs).drop (pops evs) := by
  have h0 : unread RX_BUFFER_SIZE s = [] := by
    have hc : unread_count RX_BUFFER_SIZE s = 0 := by
      simp only [RX_BUFFER_SIZE, unread_count] at *
      omega
    simp [unread, hc]
  obtain ⟨s1, r1, r2⟩ := run_schedule_simulates clk fuel evs s [] outs q hs hh
    (hempty ▸ hh) h0 hclk hq
  obtain ⟨f1, f2, f3⟩ := fifo_run_spec _ evs [] outs q hq
  simp only [List.nil_append] at f1 f2
  exact ⟨s1, r1, f1, f3, by rw [r2, f2]⟩

theorem reads_in_time_tick (s : Serial) (n : Nat) (h : 1 < s.rx_timeout) :
    reads_in_time tick_clock s n := by
  intro j _
  rw [sub32_tick]
  exact h

/-- C1 at a concrete input: the sample schedule on the freshly started channel
returns 1, 2, 3. -/
theorem fifo_order_witness :
    fifo_run (RX_BUFFER_SIZE - 1) sample_schedule [] = some ([1, 2, 3], [])
      ∧ ∃ s1, run_schedule RX_BUFFER_SIZE tick_clock (0 + 1) sample_schedule
            (Serial_begin 9600 Serial.init)
          = some (([1, 2, 3] : List Nat).map (fun b => (b : Int)), s1)
        ∧ [1, 2, 3] = (pushed sample_schedule).take (pops sample_schedule)
        ∧ ([1, 2, 3] : List Nat).length = pops sample_schedule
        ∧ unread RX_BUFFER_SIZE s1 = (pushed sample_schedule).drop (pops sample_schedule) :=
  ⟨by decide, fifo_order tick_clock 0 sample_schedule (Serial_begin 9600 Serial.init)
    [1, 2, 3] [] rfl (by decide) rfl
    (reads_in_time_tick _ _ (by decide)) (by decide)⟩

/-! ## Batch reads -/

theorem to_u8_byte (x : Nat) (h : x < 256) : to_u8 (x : Int) = x := by
  unfold to_u8
  omega

theorem store_same (m : Nat → Nat) (i v : Nat) : store m i v i = v := by
  simp [store]

theorem buffer_take_store (data : Nat → Nat) (i v : Nat) :
    buffer_take (store data i v) (i + 1) = buffer_take data i ++ [v] := by
  simp only [buffer_take, List.range_succ, List.map_append, List.map_cons, List.map_nil,
    store_same]
  congr 1
  apply List.map_congr_left
  intro j hj
  have hlt : j < i := List.mem_range.mp hj
  have : j ≠ i := by omega
  simp [store, this]

/-- The loop of `Serial_readBytesUntil` when the delimiter `d` is the first
occurrence after the unread bytes `pre`: it stops right after the delimiter. -/
theorem readBytesUntil_loop_found (clk : Nat → Nat) (fuel len d : Nat) (post : List Nat)
    (hd : d < 256) (pre : List Nat) :
    ∀ (n i : Nat) (data : Nat → Nat) (s : Serial),
      s.serial_started = true → s.rx_buffer_head < RX_BUFFER_SIZE →
      s.rx_buffer_tail < RX_BUFFER_SIZE →
      unread RX_BUFFER_SIZE s = pre ++ d :: post →
      (∀ x, x ∈ pre → x < 256 ∧ x ≠ d) → pre.length < n →
      reads_in_time clk s (pre.length + 1) →
      ∃ s1 data1, Serial_readBytesUntil_loop RX_BUFFER_SIZE clk (fuel + 1) len d n i data s
          = some (((i + pre.length + 1 : Nat) : Int), s1, data1)
        ∧ buffer_take data1 (i + pre.length + 1) = buffer_take data i ++ (pre ++ [d])
        ∧ unread RX_BUFFER_SIZE s1 = post := by
  induction pre with
  | nil =>
    intro n i data s hs hh ht hu _ hn hclk
    obtain ⟨m, rfl⟩ : ∃ m, n = m + 1 := ⟨n - 1, by simp at hn; omega⟩
    obtain ⟨rd, ru⟩ := read_front clk fuel s d post hs hh ht hu
      (reads_in_time_first clk s _ hclk)
    refine ⟨popped RX_BUFFER_SIZE s, store data i d, ?_, ?_, ru⟩
    · have h1 : ¬ ((d : Int) = -1) := by omega
      simp [Serial_readBytesUntil_loop, rd, to_u8_byte d hd, store_same, h1,
        Nat.mod_eq_of_lt hd]
    · simpa using buffer_take_store data i d
  | cons x pre ih =>
    intro n i data s hs hh ht hu hpre hn hclk
    obtain ⟨m, rfl⟩ : ∃ m, n = m + 1 := ⟨n - 1, by simp at hn; omega⟩
    obtain ⟨hx, hxd⟩ := hpre x (List.mem_cons_self x pre)
    obtain ⟨rd, ru⟩ := read_front clk fuel s x (pre ++ d :: post) hs hh ht hu
      (reads_in_time_first clk s _ hclk)
    obtain ⟨p1, p2, p3, _, _⟩ := popped_fields s
    obtain ⟨s1, data1, r1, r2, r3⟩ := ih m (i + 1) (store data i x) (popped RX_BUFFER_SIZE s)
      (p3.trans hs) p1 (p2 ▸ ht) ru (fun y hy => hpre y (List.mem_cons_of_mem x hy))
      (by simp at hn; omega) (reads_in_time_popped clk RX_BUFFER_SIZE s _ hclk)
    refine ⟨s1, data1, ?_, ?_, r3⟩
    · have h1 : ¬ ((x : Int) = -1) := by omega
      have e : i + (x :: pre).length + 1 = i + 1 + pre.length + 1 := by
        simp only [List.length_cons]
        omega
      rw [e, ← r1]
      simp [Serial_readBytesUntil_loop, rd, to_u8_byte x hx, store_same, h1,
        Nat.mod_eq_of_lt hd, hxd]
    · have e : i + (x :: pre).length + 1 = i + 1 + pre.length + 1 := by
        simp only [List.length_cons]
        omega
      rw [e, r2, buffer_take_store]
      simp

/-- The loop of `Serial_readBytesUntil` when the delimiter is not among the next
`n` unread bytes: it consumes `n` bytes and returns `len`. -/
theorem readBytesUntil_loop_full (clk : Nat → Nat) (fuel len d : Nat) (hd : d < 256)
    (n : Nat) :
    ∀ (L : List Nat) (i : Nat) (data : Nat → Nat) (s : Serial),
      s.serial_started = true → s.rx_buffer_head < RX_BUFFER_SIZE →
      s.rx_buffer_tail < RX_BUFFER_SIZE →
      unread RX_BUFFER_SIZE s = L → n ≤ L.length →
      (∀ x, x ∈ L.take n → x < 256 ∧ x ≠ d) →
      reads_in_time clk s n →
      ∃ s1 data1, Serial_readBytesUntil_loop RX_BUFFER_SIZE clk (fuel + 1) len d n i data s
          = some ((len : Int), s1, data1)
        ∧ buffer_take data1 (i + n) = buffer_take data i ++ L.take n
        ∧ unread RX_BUFFER_SIZE s1 = L.drop n := by
  induction n with
  | zero =>
    intro L i data s _ _ _ hu _ _ _
    exact ⟨s, data, by simp [Serial_readBytesUntil_loop], by simp, by simpa using hu⟩
  | succ n ih =>
    intro L i data s hs hh ht hu hlen hL hclk
    cases L with
    | nil => simp at hlen
    | cons x L =>
      obtain ⟨hx, hxd⟩ := hL x (by simp)
      obtain ⟨rd, ru⟩ := read_front clk fuel s x L hs hh ht hu
        (reads_in_time_first clk s _ hclk)
      obtain ⟨p1, p2, p3, _, _⟩ := popped_fields s
      obtain ⟨s1, data1, r1, r2, r3⟩ := ih L (i + 1) (store data i x)
        (popped RX_BUFFER_SIZE s) (p3.trans hs) p1 (p2 ▸ ht) ru
        (by simpa using hlen)
        (fun y hy => hL y (by simp [List.take_succ_cons, hy]))
        (reads_in_time_popped clk RX_BUFFER_SIZE s _ hclk)
      refine ⟨s1, data1, ?_, ?_, ?_⟩
      · have h1 : ¬ ((x : Int) = -1) := by omega
        rw [← r1]
        simp [Serial_readBytesUntil_loop, rd, to_u8_byte x hx, store_same, h1,
          Nat.mod_eq_of_lt hd, hxd]
      · have e : i + (n + 1) = i + 1 + n := by omega
        rw [e, r2, buffer_take_store]
        simp
      · simpa using r3

/-- C6: delimiter semantics of `Serial_readBytesUntil` on a started channel whose
unread bytes are `unread s` (each below 256, indices below 128), for a delimiter
`d` below 256.  If `d` first occurs at index `k < maxLen` (the unread bytes are
`pre ++ d :: post` with `d` not in `pre`, `k` the length of `pre`) and the
`k + 1` reads are in time, the call returns `k + 1`, the first `k + 1` buffer
elements are `pre ++ [d]` and the bytes left unread are `post`.  If `d` is not
among the first `maxLen` unread bytes, there are at least `maxLen` of them and
`maxLen` reads are in time, it returns `maxLen`, the first `maxLen` buffer
elements are the first `maxLen` unread bytes and the rest stays unread. -/
theorem readBytesUntil_delimiter (clk : Nat → Nat) (fuel : Nat) (data : Nat → Nat)
    (maxLen d : Nat) (s : Serial)
    (hs : s.serial_started = true)
    (hh : s.rx_buffer_head < RX_BUFFER_SIZE) (ht : s.rx_buffer_tail < RX_BUFFER_SIZE)
    (hbytes : ∀ x, x ∈ unread RX_BUFFER_SIZE s → x < 256) (hd : d < 256) :
    (∀ pre post : List Nat, unread RX_BUFFER_SIZE s = pre ++ d :: post → d ∉ pre →
        pre.length < maxLen → reads_in_time clk s (pre.length + 1) →
        ∃ s1 data1, Serial_readBytesUntil RX_BUFFER_SIZE clk (fuel + 1) data maxLen d s
            = some (((pre.length + 1 : Nat) : Int), s1, data1)
          ∧ buffer_take data1 (pre.length + 1) = pre ++ [d]
          ∧ unread RX_BUFFER_SIZE s1 = post)
      ∧ (maxLen ≤ (unread RX_BUFFER_SIZE s).length →
        d ∉ (unread RX_BUFFER_SIZE s).take maxLen → reads_in_time clk s maxLen →
        ∃ s1 data1, Serial_readBytesUntil RX_BUFFER_SIZE clk (fuel + 1) data maxLen d s
            = some ((maxLen : Int), s1, data1)
          ∧ buffer_take data1 maxLen = (unread RX_BUFFER_SIZE s).take maxLen
          ∧ unread RX_BUFFER_SIZE s1 = (unread RX_BUFFER_SIZE s).drop maxLen) := by
  constructor
  · intro pre post hu hnot hlen hclk
    have hpre : ∀ x, x ∈ pre → x < 256 ∧ x ≠ d := by
      intro x hx
      refine ⟨hbytes x (by rw [hu]; simp [hx]), ?_⟩
      intro he
      exact hnot (he ▸ hx)
    obtain ⟨s1, data1, r1, r2, r3⟩ := readBytesUntil_loop_found clk fuel maxLen d post hd pre
      maxLen 0 data s hs hh ht hu hpre hlen hclk
    refine ⟨s1, data1, ?_, ?_, r3⟩
    · simp only [Nat.zero_add] at r1
      simp [Serial_readBytesUntil, hs, r1]
    · simpa [buffer_take] using r2
  · intro hlen hnot hclk
    have hL : ∀ x, x ∈ (unread RX_BUFFER_SIZE s).take maxLen → x < 256 ∧ x ≠ d := by
      intro x hx
      refine ⟨hbytes x (List.mem_of_mem_take hx), ?_⟩
      intro he
      exact hnot (he ▸ hx)
    obtain ⟨s1, data1, r1, r2, r3⟩ := readBytesUntil_loop_full clk fuel maxLen d hd maxLen
      (unread RX_BUFFER_SIZE s) 0 data s hs hh ht rfl hlen hL hclk
    refine ⟨s1, data1, ?_, ?_, r3⟩
    · simp [Serial_readBytesUntil, hs, r1]
    · simpa [buffer_take] using r2

theorem line_session_unread : unread RX_BUFFER_SIZE line_session = [97, 98] ++ 10 :: [99] := by
  decide

/-- C6 at the input of the specification: unread bytes `a`, `b`, delimiter, `c`
and `maxLen = 10` give 3 with the delimiter stored last and `c` left unread. -/
theorem readBytesUntil_delimiter_witness :
    unread RX_BUFFER_SIZE line_session = [97, 98, 10, 99]
      ∧ ∃ s1 data1,
          Serial_readBytesUntil RX_BUFFER_SIZE tick_clock (0 + 1) (fun _ => 0) 10 10 line_session
            = some (((([97, 98] : List Nat).length + 1 : Nat) : Int), s1, data1)
          ∧ buffer_take data1 (([97, 98] : List Nat).length + 1) = [97, 98] ++ [10]
          ∧ unread RX_BUFFER_SIZE s1 = [99] :=
  ⟨by decide, (readBytesUntil_delimiter tick_clock 0 (fun _ => 0) 10 10 line_session rfl
    (by decide) (by decide) (by decide) (by decide)).1 [97, 98] [99] line_session_unread
    (by decide) (by decide) (reads_in_time_tick _ _ (by decide))⟩

/-- The comparison `data[i] == -1` of `Serial_readBytes` never succeeds: whatever
the reads return, a call on a started channel that returns gives `len`. -/
theorem readBytes_loop_returns_len (C : Nat) (clk : Nat → Nat) (fuel len : Nat) (n : Nat) :
    ∀ (i : Nat) (data : Nat → Nat) (s : Serial) (r : Int) (s1 : Serial) (data1 : Nat → Nat),
      Serial_readBytes_loop C clk fuel len n i data s = some (r, s1, data1) → r = len := by
  induction n with
  | zero =>
    intro i data s r s1 data1 h
    simp only [Serial_readBytes_loop, Option.some.injEq, Prod.mk.injEq] at h
    exact h.1.symm
  | succ n ih =>
    intro i data s r s1 data1 h
    simp only [Serial_readBytes_loop] at h
    split at h
    · exact absurd h (by simp)
    · rename_i r0 s0 _
      have hne : ¬ (((store data i (to_u8 r0) i : Nat) : Int) = -1) := by omega
      rw [if_neg hne] at h
      exact ih _ _ _ _ _ _ h

/-- C5 (the code departs from the claim): one unread byte, `maxLen = 2`, default
timeout, no further byte.  The second `Serial_read` yields -1, yet
`Serial_readBytes` returns 2 instead of 1 and stores `0xFF` in `buffer[1]`;
`Serial_readBytesUntil` with a line-feed delimiter does the same. -/
theorem readBytes_timeout_not_detected :
    unread RX_BUFFER_SIZE stale_session = [65]
      ∧ (Serial_read RX_BUFFER_SIZE coarse_clock 3 (popped RX_BUFFER_SIZE stale_session)).map
        Prod.fst = some (-1)
      ∧ (Serial_readBytes RX_BUFFER_SIZE coarse_clock 3 (fun _ => 0) 2 stale_session).map
        (fun r => (r.1, buffer_take r.2.2 2)) = some (2, [65, 255])
      ∧ (Serial_readBytesUntil RX_BUFFER_SIZE coarse_clock 3 (fun _ => 0) 2 10
          stale_session).map
        (fun r => (r.1, buffer_take r.2.2 2)) = some (2, [65, 255]) := by
  decide

/-! ## Channel not started -/

/-- The digit loop returns for every value below `10 ^ k` once `k` iterations
are allowed and `k` more digits fit into the buffer. -/
theorem digits_loop_returns (k : Nat) :
    ∀ (fuel : Nat) (data : Int) (buffer : Nat → Nat) (n : Nat),
      data < 10 ^ k → k ≤ fuel → n + k ≤ 10 →
      ∃ b m, digits_loop fuel data buffer n = Except.ok (b, m) ∧ m ≤ n + k := by
  induction k with
  | zero =>
    intro fuel data buffer n hd _ _
    have hle : ¬ (data > 0) := by
      simp only [pow_zero] at hd
      omega
    refine ⟨buffer, n, ?_, by omega⟩
    unfold digits_loop
    simp [hle]
  | succ k ih =>
    intro fuel data buffer n hd hf hn
    by_cases hpos : data > 0
    · obtain ⟨f, rfl⟩ : ∃ f, fuel = f + 1 := ⟨fuel - 1, by omega⟩
      have hn10 : n < 10 := by omega
      have hdiv : Int.tdiv data 10 < 10 ^ k := by
        rw [Int.tdiv_eq_ediv (by omega) (by omega)]
        rw [pow_succ] at hd
        exact Int.ediv_lt_of_lt_mul (by omega) hd
      obtain ⟨b, m, h1, h2⟩ := ih f (Int.tdiv data 10)
        (store buffer n (to_u8 (Int.tmod data 10 + 48))) (n + 1) hdiv (by omega) (by omega)
      refine ⟨b, m, ?_, by omega⟩
      unfold digits_loop
      simp only [hpos, if_true, hn10]
      exact h1
    · refine ⟨buffer, n, ?_, by omega⟩
      unfold digits_loop
      simp [hpos]

theorem Serial_write_not_started (b : Nat) (s : Serial) (hs : s.serial_started = false) :
    Serial_write b s = s := by
  simp [Serial_write, hs]

theorem emit_loop_not_started (buffer : Nat → Nat) (s : Serial)
    (hs : s.serial_started = false) (n : Nat) (hn : n ≤ 10) :
    emit_loop buffer n s = Except.ok s := by
  induction n with
  | zero => rfl
  | succ n ih =>
    have hlt : n < 10 := by omega
    simp only [emit_loop, hlt, if_true, Serial_write_not_started _ s hs]
    exact ih (by omega)

/-- C7: the not-started sentinel.  The channel is not started initially and after
`Serial_end`.  In every state that is not started, `Serial_available`,
`Serial_read`, `Serial_readBytes`, `Serial_readBytesUntil`, `Serial_readString`
and `Serial_readStringUntil` return -1 and leave the state and the caller's
buffer as they were, and `Serial_write`, `Serial_print`, `Serial_println`,
`Serial_print_int` (any 32-bit signed value) and `Serial_print_uint` (any 32-bit
unsigned value) return with the state unchanged, so nothing is handed to the
peripheral and `head`, `tail` and the buffer keep their values. -/
theorem not_started_sentinel (C : Nat) (clk : Nat → Nat) (fuel : Nat) (data : Nat → Nat)
    (len character b : Nat) (char_signed : Bool) (s : Serial)
    (hs : s.serial_started = false) :
    Serial.init.serial_started = false
      ∧ (∀ s0 : Serial, (Serial_end s0).serial_started = false)
      ∧ Serial_available C s = -1
      ∧ Serial_read C clk fuel s = some (-1, s)
      ∧ Serial_readBytes C clk fuel data len s = some (-1, s, data)
      ∧ Serial_readBytesUntil C clk fuel data len character s = some (-1, s, data)
      ∧ Serial_readString C clk fuel data len s = some (-1, s, data)
      ∧ Serial_readStringUntil char_signed C clk fuel data len character s
          = some (-1, s, data)
      ∧ Serial_write b s = s
      ∧ Serial_print data len s = s
      ∧ Serial_println data len s = s
      ∧ (∀ (pfuel : Nat) (buffer : Nat → Nat) (v : Int), 10 ≤ pfuel →
          -2147483648 ≤ v → v ≤ 2147483647 →
          Serial_print_int pfuel buffer v s = Except.ok s)
      ∧ (∀ (pfuel : Nat) (buffer : Nat → Nat) (v : Nat), 10 ≤ pfuel → v < 4294967296 →
          Serial_print_uint pfuel buffer v s = Except.ok s) := by
  have hw := fun x => Serial_write_not_started x s hs
  refine ⟨rfl, fun _ => rfl, ?_, ?_, ?_, ?_, ?_, ?_, hw b, ?_, ?_, ?_, ?_⟩
  · simp [Serial_available, hs]
  · simp [Serial_read, hs]
  · simp [Serial_readBytes, hs]
  · simp [Serial_readBytesUntil, hs]
  · simp [Serial_readString, Serial_readBytesUntil, hs]
  · simp [Serial_readStringUntil, hs]
  · simp [Serial_print, hs]
  · simp [Serial_println, Serial_print, hs]
  · intro pfuel buffer v hf _ hhi
    obtain ⟨b1, m, h1, h2⟩ := digits_loop_returns 10 pfuel v buffer 0 (by norm_num; omega) hf
      (by omega)
    simp [Serial_print_int, hw, h1, emit_loop_not_started b1 s hs m (by omega)]
  · intro pfuel buffer v hf hhi
    obtain ⟨b1, m, h1, h2⟩ := digits_loop_returns 10 pfuel (v : Int) buffer 0
      (by norm_num; omega) hf (by omega)
    simp [Serial_print_uint, hw, h1, emit_loop_not_started b1 s hs m (by omega)]

/-- C7 at a concrete input: the channel stopped after a session that received a
byte. -/
theorem not_started_sentinel_witness :
    (Serial_end stale_session).serial_started = false
      ∧ Serial_read RX_BUFFER_SIZE tick_clock 1 (Serial_end stale_session)
          = some (-1, Serial_end stale_session)
      ∧ Serial_println (fun _ => 65) 2 (Serial_end stale_session) = Serial_end stale_session :=
  ⟨rfl,
    (not_started_sentinel RX_BUFFER_SIZE tick_clock 1 (fun _ => 65) 2 10 65 true
      (Serial_end stale_session) rfl).2.2.2.1,
    (not_started_sentinel RX_BUFFER_SIZE tick_clock 1 (fun _ => 65) 2 10 65 true
      (Serial_end stale_session) rfl).2.2.2.2.2.2.2.2.2.2.1⟩

/-! ## Start and stop -/

/-- C8 as stated fails: a byte received in one session is still unread after
`Serial_end` and `Serial_begin`: `Serial_available` returns 1, not 0, `Serial_read`
returns the stale byte, and the state differs from a first start. -/
theorem begin_keeps_stale_byte :
    Serial_available RX_BUFFER_SIZE (Serial_begin 9600 (Serial_end stale_session)) ≠ 0
      ∧ Serial_available RX_BUFFER_SIZE (Serial_begin 9600 (Serial_end stale_session)) = 1
      ∧ (Serial_read RX_BUFFER_SIZE tick_clock 1
          (Serial_begin 9600 (Serial_end stale_session))).map Prod.fst = some 65
      ∧ (Serial_begin 9600 (Serial_end stale_session)).rx_buffer_tail
          ≠ (Serial_begin 9600 Serial.init).rx_buffer_tail := by
  decide

theorem begin_custom_fields (baudRate : Nat) (wl : UART1_WordLength)
    (sb : UART1_StopBits) (p : UART1_Parity) (s : Serial) :
    Serial_begin_custom baudRate wl sb p s =
      { s with
        serial_started := true
        uart1_init := some ⟨baudRate, UART1_WordLength.UART1_WORDLENGTH_8D,
          UART1_StopBits.UART1_STOPBITS_1, UART1_Parity.UART1_PARITY_NO⟩
        uart1_it_rxne := true
        uart1_cmd := true
        clk_uart1 := true
        gpio_tx := GPIO_Mode.GPIO_MODE_OUT_PP_HIGH_FAST
        gpio_rx := GPIO_Mode.GPIO_MODE_IN_PU_NO_IT
        utils_init := true
        interrupts := true } := by
  simp only [Serial_begin_custom, CLK_PeripheralClockConfig, disableInterrupts, Utils_init,
    GPIO_Init_TX, GPIO_Init_RX, UART1_DeInit, UART1_Init, UART1_ITConfig_RXNE,
    enableInterrupts, UART1_Cmd]

theorem end_fields (s : Serial) :
    Serial_end s =
      { s with
        serial_started := false
        uart1_init := none
        uart1_it_rxne := false
        uart1_cmd := false
        clk_uart1 := false
        gpio_tx := GPIO_Mode.GPIO_MODE_IN_FL_NO_IT
        gpio_rx := GPIO_Mode.GPIO_MODE_IN_FL_NO_IT
        interrupts := true } := by
  simp only [Serial_end, CLK_PeripheralClockConfig, disableInterrupts,
    GPIO_Init_TX, GPIO_Init_RX, UART1_DeInit, enableInterrupts, UART1_Cmd]

/-- C8, amended: after `Serial_begin_custom` (and `Serial_begin`, which is the
same function at the default framing) from any prior state the channel is
started and `head`, `tail`, the buffer and the timeout are those of the prior
state; `Serial_available` then returns 0 when the prior state had `head = tail`,
as on the first start from the initial state; and `Serial_end` followed by
`Serial_begin` gives the same state as `Serial_begin` applied to the state
before `Serial_end`. -/
theorem begin_keeps_ring (baudRate : Nat) (wordLength : UART1_WordLength)
    (stopBits : UART1_StopBits) (parity : UART1_Parity) (s : Serial) :
    (Serial_begin_custom baudRate wordLength stopBits parity s).serial_started = true
      ∧ (Serial_begin_custom baudRate wordLength stopBits parity s).rx_buffer_head
          = s.rx_buffer_head
      ∧ (Serial_begin_custom baudRate wordLength stopBits parity s).rx_buffer_tail
          = s.rx_buffer_tail
      ∧ (Serial_begin_custom baudRate wordLength stopBits parity s).rx_buffer = s.rx_buffer
      ∧ (Serial_begin_custom baudRate wordLength stopBits parity s).rx_timeout = s.rx_timeout
      ∧ Serial_begin baudRate s
          = Serial_begin_custom baudRate UART1_WordLength.UART1_WORDLENGTH_8D
              UART1_StopBits.UART1_STOPBITS_1 UART1_Parity.UART1_PARITY_NO s
      ∧ (s.rx_buffer_head = s.rx_buffer_tail →
          Serial_available RX_BUFFER_SIZE
            (Serial_begin_custom baudRate wordLength stopBits parity s) = 0)
      ∧ Serial_available RX_BUFFER_SIZE (Serial_begin baudRate Serial.init) = 0
      ∧ Serial_begin baudRate (Serial_end s) = Serial_begin baudRate s := by
  have himp : ∀ (wl : UART1_WordLength) (sb : UART1_StopBits) (p : UART1_Parity) (f : Serial),
      f.rx_buffer_head = f.rx_buffer_tail →
      Serial_available RX_BUFFER_SIZE (Serial_begin_custom baudRate wl sb p f) = 0 := by
    intro wl sb p f he
    rw [begin_custom_fields]
    simp [Serial_available, he, RX_BUFFER_SIZE]
  have hinit : Serial_available RX_BUFFER_SIZE (Serial_begin baudRate Serial.init) = 0 :=
    himp _ _ _ Serial.init rfl
  have hend : Serial_begin baudRate (Serial_end s) = Serial_begin baudRate s := by
    simp only [Serial_begin, begin_custom_fields, end_fields]
  have hsame := himp wordLength stopBits parity s
  rw [begin_custom_fields] at hsame ⊢
  exact ⟨rfl, rfl, rfl, rfl, rfl, rfl, hsame, hinit, hend⟩

/-- C8, amended, at a concrete input: the first start from the initial state. -/
theorem begin_keeps_ring_witness :
    Serial.init.rx_buffer_head = Serial.init.rx_buffer_tail
      ∧ Serial_available RX_BUFFER_SIZE
          (Serial_begin_custom 9600 UART1_WordLength.UART1_WORDLENGTH_9D
            UART1_StopBits.UART1_STOPBITS_2 UART1_Parity.UART1_PARITY_EVEN Serial.init) = 0
      ∧ Serial_begin 9600 (Serial_end stale_session) = Serial_begin 9600 stale_session :=
  ⟨rfl,
    (begin_keeps_ring 9600 UART1_WordLength.UART1_WORDLENGTH_9D
      UART1_StopBits.UART1_STOPBITS_2 UART1_Parity.UART1_PARITY_EVEN Serial.init).2.2.2.2.2.2.1
      rfl,
    (begin_keeps_ring 9600 UART1_WordLength.UART1_WORDLENGTH_9D
      UART1_StopBits.UART1_STOPBITS_2 UART1_Parity.UART1_PARITY_EVEN
      stale_session).2.2.2.2.2.2.2.2⟩

/-! ## Timeout -/

/-- Round trip of the timeout for the values that fit the eight-bit variable, with
every other component of the state untouched. -/
theorem setTimeout_small (t : Nat) (ht : t < 256) (s : Serial) :
    Serial_getTimeout (Serial_setTimeout t s) = t
      ∧ (Serial_setTimeout t s).rx_buffer_head = s.rx_buffer_head
      ∧ (Serial_setTimeout t s).rx_buffer_tail = s.rx_buffer_tail
      ∧ (Serial_setTimeout t s).rx_buffer = s.rx_buffer
      ∧ (Serial_setTimeout t s).serial_started = s.serial_started :=
  ⟨Nat.mod_eq_of_lt ht, rfl, rfl, rfl, rfl⟩

/-- C9 (the code departs from the claim): `Serial_setTimeout(1000)` followed by
`Serial_getTimeout()` returns 232, and 256 comes back as 0: the 16-bit argument
is kept in the 8-bit variable `rx_timeout`. -/
theorem setTimeout_truncates :
    Serial_getTimeout (Serial_setTimeout 1000 Serial.init) = 232
      ∧ Serial_getTimeout (Serial_setTimeout 256 Serial.init) = 0
      ∧ Serial_getTimeout (Serial_setTimeout 65535 Serial.init) = 255 := by
  decide

/-- C10 (the code departs from the claim): in the initial state
`Serial_getTimeout()` returns 232, and `Serial_read` on the freshly started empty
channel gives up at the fourth clock sample, 300 ms after the first. -/
theorem default_timeout_is_232 :
    Serial_getTimeout Serial.init = 232
      ∧ (Serial_read RX_BUFFER_SIZE coarse_clock 3 (Serial_begin 9600 Serial.init)).map
          (fun r => (r.1, r.2.millis_calls)) = some (-1, 4)
      ∧ sub32 (coarse_clock 3) (coarse_clock 0) = 300 := by
  decide

/-! ## Timeout of a single read -/

/-- The poll loop on an empty buffer, entered after `i` clock samples of the
call: it keeps polling while the samples are inside the window and returns -1 at
the first sample outside, `d` iterations later. -/
theorem read_loop_empty (C : Nat) (clk : Nat → Nat) (s : Serial) (j : Nat)
    (hempty : s.rx_buffer_head = s.rx_buffer_tail)
    (hbefore : ∀ i, 1 ≤ i → i < j →
      sub32 (clk (s.millis_calls + i)) (clk s.millis_calls) < s.rx_timeout)
    (hexp : s.rx_timeout ≤ sub32 (clk (s.millis_calls + j)) (clk s.millis_calls)) (d : Nat) :
    ∀ (i : Nat), 1 ≤ i → i + d = j →
      (∀ fuel, d + 1 ≤ fuel →
        Serial_read_loop C clk (clk s.millis_calls) fuel
            { s with millis_calls := s.millis_calls + i }
          = some (-1, { s with millis_calls := s.millis_calls + j + 1 }))
      ∧ (∀ fuel, fuel ≤ d →
        Serial_read_loop C clk (clk s.millis_calls) fuel
            { s with millis_calls := s.millis_calls + i } = none) := by
  induction d with
  | zero =>
    intro i _ hij
    have hi : i = j := by omega
    subst hi
    constructor
    · intro fuel hf
      obtain ⟨f, rfl⟩ : ∃ f, fuel = f + 1 := ⟨fuel - 1, by omega⟩
      have hnot : ¬ (sub32 (clk (s.millis_calls + i)) (clk s.millis_calls) < s.rx_timeout) := by
        omega
      simp [Serial_read_loop, hnot]
    · intro fuel hf
      have h0 : fuel = 0 := by omega
      subst h0
      rfl
  | succ d ih =>
    intro i hi hij
    have hin := hbefore i hi (by omega)
    have hne : ¬ (s.rx_buffer_head ≠ s.rx_buffer_tail) := by
      intro h
      exact h hempty
    obtain ⟨ih1, ih2⟩ := ih (i + 1) (by omega) (by omega)
    constructor
    · intro fuel hf
      obtain ⟨f, rfl⟩ : ∃ f, fuel = f + 1 := ⟨fuel - 1, by omega⟩
      have h := ih1 f (by omega)
      simp only [Serial_read_loop, hin, if_true, hne, if_false]
      simpa [Nat.add_assoc] using h
    · intro fuel hf
      cases fuel with
      | zero => rfl
      | succ f =>
        have h := ih2 f (by omega)
        simp only [Serial_read_loop, hin, if_true, hne, if_false]
        simpa [Nat.add_assoc] using h

/-- C11: timeout lower bound.  On a started channel with an empty buffer and no
byte arriving, with `T` the value `Serial_getTimeout` reports and `start` the
clock sample taken at entry, let the `j`-th later sample be the first whose
elapsed time `(m - start) mod 2^32` is at least `T`.  Then `Serial_read` returns
-1 having taken exactly that sample last (the state is unchanged apart from the
count of clock samples, so `head` and `tail` keep their values), and with fewer
than `j` loop iterations it has not returned: no earlier sample, all of which
have elapsed time below `T`, makes it return. -/
theorem read_timeout_lower_bound (C : Nat) (clk : Nat → Nat) (s : Serial) (j : Nat)
    (hs : s.serial_started = true) (hempty : s.rx_buffer_head = s.rx_buffer_tail)
    (hj : 1 ≤ j)
    (hbefore : ∀ i, 1 ≤ i → i < j →
      sub32 (clk (s.millis_calls + i)) (clk s.millis_calls) < Serial_getTimeout s)
    (hexp : Serial_getTimeout s ≤ sub32 (clk (s.millis_calls + j)) (clk s.millis_calls)) :
    (∀ fuel, j ≤ fuel →
        Serial_read C clk fuel s
          = some (-1, { s with millis_calls := s.millis_calls + j + 1 }))
      ∧ (∀ fuel, fuel < j → Serial_read C clk fuel s = none) := by
  obtain ⟨h1, h2⟩ := read_loop_empty C clk s j hempty hbefore hexp (j - 1) 1 (le_refl 1)
    (by omega)
  have hb : (!s.serial_started) = false := by
    rw [hs]
    rfl
  constructor
  · intro fuel hf
    unfold Serial_read
    rw [hb]
    simp only [Bool.false_eq_true, if_false]
    exact h1 fuel (by omega)
  · intro fuel hf
    unfold Serial_read
    rw [hb]
    simp only [Bool.false_eq_true, if_false]
    exact h2 fuel (by omega)

/-- C11 at a concrete input: default timeout (232 is what `Serial_getTimeout`
reports), samples 100 ms apart; the read returns at the third sample after
`start`, the first with at least 232 ms elapsed. -/
theorem read_timeout_lower_bound_witness :
    Serial_getTimeout fresh_session ≤ sub32 (coarse_clock (fresh_session.millis_calls + 3))
        (coarse_clock fresh_session.millis_calls)
      ∧ (∀ fuel, 3 ≤ fuel →
          Serial_read RX_BUFFER_SIZE coarse_clock fuel fresh_session
            = some (-1, { fresh_session with
                millis_calls := fresh_session.millis_calls + 3 + 1 }))
      ∧ (∀ fuel, fuel < 3 →
          Serial_read RX_BUFFER_SIZE coarse_clock fuel fresh_session = none) :=
  ⟨by decide,
    read_timeout_lower_bound RX_BUFFER_SIZE coarse_clock fresh_session 3 rfl rfl (by decide)
      (by
        intro i h1 h3
        have hi : i = 1 ∨ i = 2 := by omega
        rcases hi with rfl | rfl <;> decide)
      (by decide)⟩

/-- A read with a stored timeout of zero returns -1 whatever the buffer holds. -/
theorem read_zero_timeout (C : Nat) (clk : Nat → Nat) (fuel : Nat) (s : Serial)
    (hs : s.serial_started = true) (h0 : s.rx_timeout = 0) :
    Serial_read C clk (fuel + 1) s
      = some (-1, { s with millis_calls := s.millis_calls + 2 }) := by
  simp [Serial_read, Serial_read_loop, hs, h0]

/-- C12 (the code departs from the claim): one unread byte and
`Serial_setTimeout(0)`.  `Serial_read` returns -1 although a byte is available,
and the byte stays unread. -/
theorem read_zero_timeout_ignores_byte :
    unread RX_BUFFER_SIZE (Serial_setTimeout 0 stale_session) = [65]
      ∧ (Serial_read RX_BUFFER_SIZE tick_clock 1 (Serial_setTimeout 0 stale_session)).map
          (fun r => (r.1, unread RX_BUFFER_SIZE r.2)) = some (-1, [65]) := by
  decide

/-! ## Strings -/

/-- C13 (the code departs from the claim): unread bytes `0xFF`, `A`, NUL,
`maxLen = 10`, character line feed, every read in time.  The first index holding
NUL or the character is 2, so the claim gives 3 with `str[0..2]` holding the
three bytes.  With plain `char` signed the stored `0xFF` compares equal to -1 and
the function returns 0 after one byte; only with plain `char` unsigned does it
return 3. -/
theorem readStringUntil_ff_taken_for_timeout :
    unread RX_BUFFER_SIZE ff_session = [255, 65, 0]
      ∧ (Serial_readStringUntil true RX_BUFFER_SIZE tick_clock 1 (fun _ => 0) 10 10
          ff_session).map (fun r => (r.1, buffer_take r.2.2 3, unread RX_BUFFER_SIZE r.2.1))
        = some (0, [255, 0, 0], [65, 0])
      ∧ (Serial_readStringUntil false RX_BUFFER_SIZE tick_clock 1 (fun _ => 0) 10 10
          ff_session).map (fun r => (r.1, buffer_take r.2.2 3, unread RX_BUFFER_SIZE r.2.1))
        = some (3, [255, 65, 0], []) := by
  decide

theorem char_to_int_facts (char_signed : Bool) (x : Nat) (hx : x < 256) :
    (char_to_int char_signed x = -1 ↔ (char_signed = true ∧ x = 255))
      ∧ (char_to_int char_signed x = 0 ↔ x = 0)
      ∧ ∀ y, y < 256 → (char_to_int char_signed x = char_to_int char_signed y ↔ x = y) := by
  cases char_signed
  · refine ⟨?_, ?_, ?_⟩
    · simp only [char_to_int, Bool.false_and, Bool.false_eq_true, if_false, false_and, iff_false]
      omega
    · simp only [char_to_int, Bool.false_and, Bool.false_eq_true, if_false]
      omega
    · intro y hy
      simp only [char_to_int, Bool.false_and, Bool.false_eq_true, if_false]
      omega
  · refine ⟨?_, ?_, ?_⟩
    · simp only [char_to_int, Bool.true_and, decide_eq_true_eq, true_and]
      split <;> omega
    · simp only [char_to_int, Bool.true_and, decide_eq_true_eq]
      split <;> omega
    · intro y hy
      simp only [char_to_int, Bool.true_and, decide_eq_true_eq]
      split <;> split <;> omega

/-- The loop of `Serial_readStringUntil` when the next unread bytes `pre` neither
stop the loop nor compare equal to -1 and the byte `d` after them is NUL or the
character: it stops right after `d`. -/
theorem readStringUntil_loop_found (char_signed : Bool) (clk : Nat → Nat)
    (fuel len c d : Nat) (post : List Nat) (hc : c < 256) (hd : d < 256)
    (hstop : d = 0 ∨ d = c) (hdff : char_signed = true → d ≠ 255) (pre : List Nat) :
    ∀ (n i : Nat) (str : Nat → Nat) (s : Serial),
      s.serial_started = true → s.rx_buffer_head < RX_BUFFER_SIZE →
      s.rx_buffer_tail < RX_BUFFER_SIZE →
      unread RX_BUFFER_SIZE s = pre ++ d :: post →
      (∀ x, x ∈ pre → x < 256 ∧ x ≠ 0 ∧ x ≠ c ∧ (char_signed = true → x ≠ 255)) →
      pre.length < n → reads_in_time clk s (pre.length + 1) →
      ∃ s1 str1,
        Serial_readStringUntil_loop char_signed RX_BUFFER_SIZE clk (fuel + 1) len c n i str s
          = some (((i + pre.length + 1 : Nat) : Int), s1, str1)
        ∧ buffer_take str1 (i + pre.length + 1) = buffer_take str i ++ (pre ++ [d])
        ∧ unread RX_BUFFER_SIZE s1 = post := by
  induction pre with
  | nil =>
    intro n i str s hs hh ht hu _ hn hclk
    obtain ⟨m, rfl⟩ : ∃ m, n = m + 1 := ⟨n - 1, by simp at hn; omega⟩
    obtain ⟨rd, ru⟩ := read_front clk fuel s d post hs hh ht hu
      (reads_in_time_first clk s _ hclk)
    obtain ⟨f1, f2, f3⟩ := char_to_int_facts char_signed d hd
    have h1 : ¬ (char_to_int char_signed d = -1) := fun h => hdff (f1.mp h).1 (f1.mp h).2
    have h2 : char_to_int char_signed d = 0
        ∨ char_to_int char_signed d = char_to_int char_signed c := by
      rcases hstop with h0 | hdc
      · exact Or.inl (f2.mpr h0)
      · exact Or.inr ((f3 c hc).mpr hdc)
    refine ⟨popped RX_BUFFER_SIZE s, store str i d, ?_, ?_, ru⟩
    · simp [Serial_readStringUntil_loop, rd, to_u8_byte d hd, store_same, h1, h2]
    · simpa using buffer_take_store str i d
  | cons x pre ih =>
    intro n i str s hs hh ht hu hpre hn hclk
    obtain ⟨m, rfl⟩ : ∃ m, n = m + 1 := ⟨n - 1, by simp at hn; omega⟩
    obtain ⟨hx, hx0, hxc, hxff⟩ := hpre x (List.mem_cons_self x pre)
    obtain ⟨rd, ru⟩ := read_front clk fuel s x (pre ++ d :: post) hs hh ht hu
      (reads_in_time_first clk s _ hclk)
    obtain ⟨p1, p2, p3, _, _⟩ := popped_fields s
    obtain ⟨s1, str1, r1, r2, r3⟩ := ih m (i + 1) (store str i x) (popped RX_BUFFER_SIZE s)
      (p3.trans hs) p1 (p2 ▸ ht) ru (fun y hy => hpre y (List.mem_cons_of_mem x hy))
      (by simp at hn; omega) (reads_in_time_popped clk RX_BUFFER_SIZE s _ hclk)
    obtain ⟨f1, f2, f3⟩ := char_to_int_facts char_signed x hx
    have h1 : ¬ (char_to_int char_signed x = -1) := fun h => hxff (f1.mp h).1 (f1.mp h).2
    have h2 : ¬ (char_to_int char_signed x = 0
        ∨ char_to_int char_signed x = char_to_int char_signed c) := by
      intro h
      rcases h with h0 | hdc
      · exact hx0 (f2.mp h0)
      · exact hxc ((f3 c hc).mp hdc)
    have e : i + (x :: pre).length + 1 = i + 1 + pre.length + 1 := by
      simp only [List.length_cons]
      omega
    refine ⟨s1, str1, ?_, ?_, r3⟩
    · rw [e, ← r1]
      simp only [Serial_readStringUntil_loop, rd, to_u8_byte x hx, store_same, h1, h2, if_false]
    · rw [e, r2, buffer_take_store]
      simp

/-- The loop of `Serial_readStringUntil` when none of the next `n` unread bytes
stops it or compares equal to -1: it consumes `n` bytes and returns `len`. -/
theorem readStringUntil_loop_full (char_signed : Bool) (clk : Nat → Nat)
    (fuel len c : Nat) (hc : c < 256) (n : Nat) :
    ∀ (L : List Nat) (i : Nat) (str : Nat → Nat) (s : Serial),
      s.serial_started = true → s.rx_buffer_head < RX_BUFFER_SIZE →
      s.rx_buffer_tail < RX_BUFFER_SIZE →
      unread RX_BUFFER_SIZE s = L → n ≤ L.length →
      (∀ x, x ∈ L.take n → x < 256 ∧ x ≠ 0 ∧ x ≠ c ∧ (char_signed = true → x ≠ 255)) →
      reads_in_time clk s n →
      ∃ s1 str1,
        Serial_readStringUntil_loop char_signed RX_BUFFER_SIZE clk (fuel + 1) len c n i str s
          = some ((len : Int), s1, str1)
        ∧ buffer_take str1 (i + n) = buffer_take str i ++ L.take n
        ∧ unread RX_BUFFER_SIZE s1 = L.drop n := by
  induction n with
  | zero =>
    intro L i str s _ _ _ hu _ _ _
    exact ⟨s, str, by simp [Serial_readStringUntil_loop], by simp, by simpa using hu⟩
  | succ n ih =>
    intro L i str s hs hh ht hu hlen hL hclk
    cases L with
    | nil => simp at hlen
    | cons x L =>
      obtain ⟨hx, hx0, hxc, hxff⟩ := hL x (by simp)
      obtain ⟨rd, ru⟩ := read_front clk fuel s x L hs hh ht hu
        (reads_in_time_first clk s _ hclk)
      obtain ⟨p1, p2, p3, _, _⟩ := popped_fields s
      obtain ⟨s1, str1, r1, r2, r3⟩ := ih L (i + 1) (store str i x)
        (popped RX_BUFFER_SIZE s) (p3.trans hs) p1 (p2 ▸ ht) ru
        (by simpa using hlen)
        (fun y hy => hL y (by simp [List.take_succ_cons, hy]))
        (reads_in_time_popped clk RX_BUFFER_SIZE s _ hclk)
      obtain ⟨f1, f2, f3⟩ := char_to_int_facts char_signed x hx
      have h1 : ¬ (char_to_int char_signed x = -1) := fun h => hxff (f1.mp h).1 (f1.mp h).2
      have h2 : ¬ (char_to_int char_signed x = 0
          ∨ char_to_int char_signed x = char_to_int char_signed c) := by
        intro h
        rcases h with h0 | hdc
        · exact hx0 (f2.mp h0)
        · exact hxc ((f3 c hc).mp hdc)
      refine ⟨s1, str1, ?_, ?_, ?_⟩
      · rw [← r1]
        simp only [Serial_readStringUntil_loop, rd, to_u8_byte x hx, store_same, h1, h2,
          if_false]
      · have e : i + (n + 1) = i + 1 + n := by omega
        rw [e, r2, buffer_take_store]
        simp
      · simpa using r3

/-- What holds of `Serial_readStringUntil` in place of C13: the stated stopping
behaviour, for unread bytes that do not contain `0xFF` among the consumed ones
when plain `char` is signed, and for all byte values when it is unsigned. -/
theorem readStringUntil_stops (char_signed : Bool) (clk : Nat → Nat) (fuel : Nat)
    (str : Nat → Nat) (maxLen c : Nat) (s : Serial)
    (hs : s.serial_started = true)
    (hh : s.rx_buffer_head < RX_BUFFER_SIZE) (ht : s.rx_buffer_tail < RX_BUFFER_SIZE)
    (hbytes : ∀ x, x ∈ unread RX_BUFFER_SIZE s → x < 256) (hc : c < 256) :
    (∀ (pre post : List Nat) (d : Nat), unread RX_BUFFER_SIZE s = pre ++ d :: post →
        (d = 0 ∨ d = c) → (∀ x, x ∈ pre → x ≠ 0 ∧ x ≠ c) →
        (char_signed = true → ∀ x, x ∈ pre ++ [d] → x ≠ 255) →
        pre.length < maxLen → reads_in_time clk s (pre.length + 1) →
        ∃ s1 str1, Serial_readStringUntil char_signed RX_BUFFER_SIZE clk (fuel + 1) str maxLen c s
            = some (((pre.length + 1 : Nat) : Int), s1, str1)
          ∧ buffer_take str1 (pre.length + 1) = pre ++ [d]
          ∧ unread RX_BUFFER_SIZE s1 = post)
      ∧ (maxLen ≤ (unread RX_BUFFER_SIZE s).length →
        (∀ x, x ∈ (unread RX_BUFFER_SIZE s).take maxLen → x ≠ 0 ∧ x ≠ c) →
        (char_signed = true → ∀ x, x ∈ (unread RX_BUFFER_SIZE s).take maxLen → x ≠ 255) →
        reads_in_time clk s maxLen →
        ∃ s1 str1, Serial_readStringUntil char_signed RX_BUFFER_SIZE clk (fuel + 1) str maxLen c s
            = some ((maxLen : Int), s1, str1)
          ∧ buffer_take str1 maxLen = (unread RX_BUFFER_SIZE s).take maxLen
          ∧ unread RX_BUFFER_SIZE s1 = (unread RX_BUFFER_SIZE s).drop maxLen) := by
  have hb : (!s.serial_started) = false := by
    rw [hs]
    rfl
  constructor
  · intro pre post d hu hstop hpre hff hlen hclk
    have hd : d < 256 := hbytes d (by rw [hu]; simp)
    obtain ⟨s1, str1, r1, r2, r3⟩ := readStringUntil_loop_found char_signed clk fuel maxLen c d
      post hc hd hstop (fun hsg => hff hsg d (by simp)) pre maxLen 0 str s hs hh ht hu
      (fun x hx => ⟨hbytes x (by rw [hu]; simp [hx]), (hpre x hx).1, (hpre x hx).2,
        fun hsg => hff hsg x (by simp [hx])⟩) hlen hclk
    refine ⟨s1, str1, ?_, ?_, r3⟩
    · simp only [Nat.zero_add] at r1
      simp only [Serial_readStringUntil, hb, Bool.false_eq_true, if_false, r1]
    · simpa [buffer_take] using r2
  · intro hlen hL hff hclk
    obtain ⟨s1, str1, r1, r2, r3⟩ := readStringUntil_loop_full char_signed clk fuel maxLen c hc
      maxLen (unread RX_BUFFER_SIZE s) 0 str s hs hh ht rfl hlen
      (fun x hx => ⟨hbytes x (List.mem_of_mem_take hx), (hL x hx).1, (hL x hx).2,
        fun hsg => hff hsg x hx⟩) hclk
    refine ⟨s1, str1, ?_, ?_, r3⟩
    · simp only [Serial_readStringUntil, hb, Bool.false_eq_true, if_false, r1]
    · simpa [buffer_take] using r2

/-! ## Printing -/

/-- The bytes `Serial_print` hands over on a started channel. -/
theorem print_loop_sent (data : Nat → Nat) (n : Nat) :
    ∀ (i : Nat) (s : Serial), s.serial_started = true →
      (Serial_print_loop data n i s).sent
          = s.sent ++ (List.range n).map (fun k => data (i + k) % 256)
        ∧ (Serial_print_loop data n i s).serial_started = true := by
  induction n with
  | zero =>
    intro i s hs
    simp [Serial_print_loop, hs]
  | succ n ih =>
    intro i s hs
    have hw : Serial_write (data i) s = { s with sent := s.sent ++ [data i % 256] } := by
      simp [Serial_write, hs]
    obtain ⟨h1, h2⟩ := ih (i + 1) { s with sent := s.sent ++ [data i % 256] } hs
    have e : (List.range (n + 1)).map (fun k => data (i + k) % 256)
        = (data i % 256) :: (List.range n).map (fun k => data (i + 1 + k) % 256) := by
      rw [List.range_succ_eq_map, List.map_cons, List.map_map]
      congr 1
      apply List.map_congr_left
      intro k _
      show data (i + (k + 1)) % 256 = _
      rw [Nat.add_assoc, Nat.add_comm 1 k]
    simp only [Serial_print_loop, hw]
    refine ⟨?_, h2⟩
    rw [h1, e]
    simp

theorem print_started (data : Nat → Nat) (len : Nat) (s : Serial)
    (hs : s.serial_started = true) :
    Serial_print data len s = Serial_print_loop data len 0 s := by
  simp [Serial_print, hs]

/-- On a started channel `Serial_println` hands over the bytes of `data`, then a
line feed and a NUL. -/
theorem println_sent (data : Nat → Nat) (len : Nat) (s : Serial)
    (hs : s.serial_started = true) :
    (Serial_println data len s).sent
      = s.sent ++ (List.range len).map (fun k => data k % 256) ++ [10, 0] := by
  obtain ⟨h1, h2⟩ := print_loop_sent data len 0 s hs
  have hp := print_started data len s hs
  have hs2 : (Serial_print data len s).serial_started = true := hp ▸ h2
  obtain ⟨h3, _⟩ := print_loop_sent newline_literal 2 0 (Serial_print data len s) hs2
  have hq : Serial_println data len s
      = Serial_print_loop newline_literal 2 0 (Serial_print data len s) :=
    print_started newline_literal 2 (Serial_print data len s) hs2
  rw [hq, h3, hp, h1]
  simp [newline_literal, List.range_succ]

/-- C15 (the code departs from the claim): `Serial_println` of the one byte `A`
on a freshly started channel hands over `A`, line feed, NUL; the claim expects
`A`, carriage return, line feed. -/
theorem println_sends_lf_nul :
    (Serial_println (fun _ => 65) 1 fresh_session).sent = [65, 10, 0]
      ∧ (Serial_println (fun _ => 65) 1 fresh_session).sent ≠ [65, 13, 10]
      ∧ (Serial_print (fun _ => 65) 1 fresh_session).sent = [65] := by
  decide

/-! ## Configuration -/

/-- C16 (the code departs from the claim): `Serial_begin_custom` called with nine
data bits, two stop bits and even parity hands eight data bits, one stop bit and
no parity to `UART1_Init`. -/
theorem begin_custom_ignores_framing :
    (Serial_begin_custom 9600 UART1_WordLength.UART1_WORDLENGTH_9D
        UART1_StopBits.UART1_STOPBITS_2 UART1_Parity.UART1_PARITY_EVEN Serial.init).uart1_init
      = some ⟨9600, UART1_WordLength.UART1_WORDLENGTH_8D, UART1_StopBits.UART1_STOPBITS_1,
          UART1_Parity.UART1_PARITY_NO⟩
      ∧ (Serial_begin_custom 9600 UART1_WordLength.UART1_WORDLENGTH_9D
          UART1_StopBits.UART1_STOPBITS_2 UART1_Parity.UART1_PARITY_EVEN Serial.init).uart1_init
        ≠ some ⟨9600, UART1_WordLength.UART1_WORDLENGTH_9D, UART1_StopBits.UART1_STOPBITS_2,
          UART1_Parity.UART1_PARITY_EVEN⟩ := by
  decide

/-! ## Other capacities -/

/-- For capacities from 2 to 128, and for 256, the count `Serial_available`
returns is the unread-byte count of the data model. -/
theorem available_small_capacity (C : Nat) (s : Serial) (hs : s.serial_started = true)
    (hC : (2 ≤ C ∧ C ≤ 128) ∨ C = 256)
    (hh : s.rx_buffer_head < C) (ht : s.rx_buffer_tail < C) :
    Serial_available C s = (unread_count C s : Int) := by
  have hb : (!s.serial_started) = false := by
    rw [hs]
    rfl
  simp only [Serial_available, unread_count, hb, Bool.false_eq_true, if_false]
  rcases hC with ⟨h2, h128⟩ | h256
  · have h1 : ((C : Int) + s.rx_buffer_tail - s.rx_buffer_head) % 256
        = ((C + s.rx_buffer_tail - s.rx_buffer_head : Nat) : Int) := by omega
    rw [h1]
    exact (Int.natCast_mod _ _).symm
  · subst h256
    omega

set_option maxRecDepth 20000 in
/-- C17 (the code departs from the claim): with `RX_BUFFER_SIZE` defined as 200
and 100 bytes received (`head = 0`, `tail = 100`), `Serial_available` returns 44
while `(C + tail - head) mod C` is 100. -/
theorem available_wrong_at_200 :
    wide_session.rx_buffer_head = 0 ∧ wide_session.rx_buffer_tail = 100
      ∧ Serial_available 200 wide_session = 44
      ∧ (200 + wide_session.rx_buffer_tail - wide_session.rx_buffer_head) % 200 = 100 := by
  decide

/-! ## Decimal printing -/

theorem digits_length_le (k : Nat) : ∀ v : Nat, v < 10 ^ k → (Nat.digits 10 v).length ≤ k := by
  induction k with
  | zero =>
    intro v hv
    have h0 : v = 0 := by
      simp only [pow_zero] at hv
      omega
    simp [h0]
  | succ k ih =>
    intro v hv
    rcases Nat.eq_zero_or_pos v with h0 | hpos
    · simp [h0]
    · rw [Nat.digits_def' (by omega) hpos, List.length_cons]
      have hlt : v / 10 < 10 ^ k := by
        rw [pow_succ] at hv
        exact Nat.div_lt_of_lt_mul (by rw [Nat.mul_comm]; exact hv)
      have := ih (v / 10) hlt
      omega

/-- The digit loop on a non-negative value stores its decimal digits, least
significant first, as ASCII characters from index `n` on. -/
theorem digits_loop_digits (fuel : Nat) :
    ∀ (v : Nat) (buffer : Nat → Nat) (n : Nat),
      (Nat.digits 10 v).length ≤ fuel → n + (Nat.digits 10 v).length ≤ 10 →
      ∃ b, digits_loop fuel (v : Int) buffer n
          = Except.ok (b, n + (Nat.digits 10 v).length)
        ∧ buffer_take b (n + (Nat.digits 10 v).length)
          = buffer_take buffer n ++ (Nat.digits 10 v).map (fun d => d + 48) := by
  induction fuel with
  | zero =>
    intro v buffer n hf _
    have h0 : v = 0 := by
      rcases Nat.eq_zero_or_pos v with h | h
      · exact h
      · rw [Nat.digits_def' (by omega) h] at hf
        simp at hf
    subst h0
    refine ⟨buffer, ?_, by simp⟩
    unfold digits_loop
    simp
  | succ f ih =>
    intro v buffer n hf hn
    rcases Nat.eq_zero_or_pos v with h0 | hpos
    · subst h0
      refine ⟨buffer, ?_, by simp⟩
      unfold digits_loop
      simp
    · have hd := Nat.digits_def' (b := 10) (by omega) hpos
      rw [hd, List.length_cons] at hf hn
      have hdiv : Int.tdiv (v : Int) 10 = ((v / 10 : Nat) : Int) := by
        rw [Int.tdiv_eq_ediv (by omega) (by omega)]
        omega
      have hmod : to_u8 (Int.tmod (v : Int) 10 + 48) = v % 10 + 48 := by
        rw [Int.tmod_eq_emod (by omega) (by omega)]
        unfold to_u8
        omega
      obtain ⟨b, h1, h2⟩ := ih (v / 10) (store buffer n (v % 10 + 48)) (n + 1) (by omega)
        (by omega)
      refine ⟨b, ?_, ?_⟩
      · have hgt : (v : Int) > 0 := by omega
        have hn10 : n < 10 := by omega
        unfold digits_loop
        simp only [hgt, if_true, hn10, hdiv, hmod]
        rw [h1, hd, List.length_cons]
        congr 2
        omega
      · rw [hd, List.length_cons, List.map_cons]
        have e : n + ((Nat.digits 10 (v / 10)).length + 1)
            = n + 1 + (Nat.digits 10 (v / 10)).length := by omega
        rw [e, h2, buffer_take_store]
        simp

/-- The output loop returns once `n` is at most 10, on any channel. -/
theorem emit_loop_returns (buffer : Nat → Nat) (n : Nat) :
    ∀ s : Serial, n ≤ 10 → ∃ s1, emit_loop buffer n s = Except.ok s1 := by
  induction n with
  | zero =>
    intro s _
    exact ⟨s, rfl⟩
  | succ n ih =>
    intro s hn
    have hlt : n < 10 := by omega
    obtain ⟨s1, h1⟩ := ih (Serial_write (buffer n) s) (by omega)
    exact ⟨s1, by simp only [emit_loop, hlt, if_true, h1]⟩

theorem Serial_write_started (b : Nat) (s : Serial) (hs : s.serial_started = true) :
    (Serial_write b s).sent = s.sent ++ [b % 256]
      ∧ (Serial_write b s).serial_started = true := by
  simp [Serial_write, hs]

/-- On a started channel the output loop hands over `buffer[n-1]` down to
`buffer[0]`. -/
theorem emit_loop_sent (buffer : Nat → Nat) (n : Nat) :
    ∀ s : Serial, s.serial_started = true → n ≤ 10 →
      ∃ s1, emit_loop buffer n s = Except.ok s1
        ∧ s1.sent = s.sent ++ ((buffer_take buffer n).reverse).map (· % 256)
        ∧ s1.serial_started = true := by
  induction n with
  | zero =>
    intro s hs _
    exact ⟨s, rfl, by simp [buffer_take], hs⟩
  | succ n ih =>
    intro s hs hn
    have hlt : n < 10 := by omega
    obtain ⟨w1, w2⟩ := Serial_write_started (buffer n) s hs
    obtain ⟨s1, h1, h2, h3⟩ := ih (Serial_write (buffer n) s) w2 (by omega)
    refine ⟨s1, by simp only [emit_loop, hlt, if_true, h1], ?_, h3⟩
    rw [h2, w1]
    simp [buffer_take, List.range_succ]

/-- The decimal string denotes the number it was made from. -/
theorem decimal_ascii_parse (v : Nat) : parse_decimal (decimal_ascii v) = v := by
  have key : ∀ L : List Nat,
      List.foldr (fun d acc => 10 * acc + (d + 48 - 48)) 0 L = Nat.ofDigits 10 L := by
    intro L
    induction L with
    | nil => rfl
    | cons d L ih =>
      rw [List.foldr_cons, ih, Nat.ofDigits_cons]
      simp only [Nat.add_sub_cancel, Nat.cast_id]
      omega
  unfold decimal_ascii parse_decimal
  split
  · rename_i h0
    simp [h0]
  · rw [List.foldl_map, List.foldl_reverse, key, Nat.ofDigits_digits]

/-- The decimal string consists of the characters `0` to `9`. -/
theorem decimal_ascii_chars (v c : Nat) (hc : c ∈ decimal_ascii v) : 48 ≤ c ∧ c ≤ 57 := by
  unfold decimal_ascii at hc
  split at hc
  · simp only [List.mem_singleton] at hc
    omega
  · simp only [List.mem_map, List.mem_reverse] at hc
    obtain ⟨d, hd, hdc⟩ := hc
    have := Nat.digits_lt_base (b := 10) (by omega) hd
    omega

/-- The decimal string of a positive number does not start with `0`. -/
theorem decimal_ascii_leading (v : Nat) (hv : v ≠ 0) : (decimal_ascii v).head? ≠ some 48 := by
  have hne : Nat.digits 10 v ≠ [] := Nat.digits_ne_nil_iff_ne_zero.mpr hv
  have hlast := Nat.getLast_digit_ne_zero 10 hv
  unfold decimal_ascii
  rw [if_neg hv, List.head?_map, List.head?_reverse, List.getLast?_eq_getLast _ hne]
  simp only [Option.map_some', ne_eq, Option.some.injEq]
  omega

/-- What `Serial_print_uint` hands over on a started channel. -/
theorem print_uint_sent (fuel : Nat) (buffer : Nat → Nat) (v : Nat) (s : Serial)
    (hs : s.serial_started = true) (hf : 10 ≤ fuel) (hv : v < 10 ^ 10) :
    ∃ s1, Serial_print_uint fuel buffer v s = Except.ok s1
      ∧ s1.sent = s.sent ++ decimal_ascii v ++ [0] := by
  have hlen := digits_length_le 10 v hv
  obtain ⟨b, h1, h2⟩ := digits_loop_digits fuel v buffer 0 (by omega) (by omega)
  simp only [Nat.zero_add] at h1 h2
  have hb0 : buffer_take buffer 0 = [] := rfl
  rw [hb0, List.nil_append] at h2
  have hmod : ((Nat.digits 10 v).map (fun d => d + 48)).reverse.map (· % 256)
      = (Nat.digits 10 v).reverse.map (fun d => d + 48) := by
    rw [← List.map_reverse, List.map_map]
    apply List.map_congr_left
    intro d hd
    have := Nat.digits_lt_base (b := 10) (by omega) (List.mem_reverse.mp hd)
    show (d + 48) % 256 = d + 48
    omega
  rcases Nat.eq_zero_or_pos v with h0 | hpos
  · subst h0
    obtain ⟨w1, w2⟩ := Serial_write_started 48 s hs
    obtain ⟨s2, e1, e2, e3⟩ := emit_loop_sent b (Nat.digits 10 0).length (Serial_write 48 s) w2
      hlen
    obtain ⟨z1, _⟩ := Serial_write_started 0 s2 e3
    refine ⟨Serial_write 0 s2, ?_, ?_⟩
    · simp only [Serial_print_uint, if_true]
      rw [h1]
      simp only [e1]
    · rw [z1, e2, w1]
      simp [decimal_ascii, buffer_take]
  · have hne : v ≠ 0 := by omega
    obtain ⟨s2, e1, e2, e3⟩ := emit_loop_sent b (Nat.digits 10 v).length s hs hlen
    obtain ⟨z1, _⟩ := Serial_write_started 0 s2 e3
    refine ⟨Serial_write 0 s2, ?_, ?_⟩
    · simp only [Serial_print_uint, hne, if_false]
      rw [h1]
      simp only [e1]
    · rw [z1, e2, h2, hmod]
      simp [decimal_ascii, hne]

/-- On natural numbers `Serial_print_int` and `Serial_print_uint` do the same. -/
theorem print_int_eq_print_uint (fuel : Nat) (buffer : Nat → Nat) (v : Nat) (s : Serial) :
    Serial_print_int fuel buffer (v : Int) s = Serial_print_uint fuel buffer v s := by
  have hneg : ¬ ((v : Int) < 0) := by omega
  rcases Nat.eq_zero_or_pos v with h0 | hpos
  · subst h0
    simp [Serial_print_int, Serial_print_uint]
  · have hne : v ≠ 0 := by omega
    have hne2 : ¬ ((v : Int) = 0) := by omega
    simp only [Serial_print_int, Serial_print_uint, hne, hne2, hneg, if_false]

/-- C14 as stated fails: on a freshly started channel `Serial_print_int(0)` hands
over `0` and a NUL byte, not exactly `0`, and `Serial_print_int(-42)` hands over
`-` and a NUL byte, not `-42`. -/
theorem print_int_not_exact :
    (Serial_print_int 10 (fun _ => 0) 0 fresh_session).toOption.map (fun r => r.sent)
        = some [48, 0]
      ∧ (Serial_print_int 10 (fun _ => 0) 0 fresh_session).toOption.map (fun r => r.sent)
        ≠ some [48]
      ∧ (Serial_print_int 10 (fun _ => 0) (-42) fresh_session).toOption.map (fun r => r.sent)
        = some [45, 0]
      ∧ (Serial_print_int 10 (fun _ => 0) (-42) fresh_session).toOption.map (fun r => r.sent)
        ≠ some [45, 52, 50] := by
  decide

/-- C14, amended: on a started channel, for every `v` from 0 to 2147483647,
`Serial_print_int(v)` returns having handed over the ASCII decimal string of
`v` followed by one NUL byte; the string consists of digits, has no leading zero
unless `v` is 0, and parses back to `v`; for `v = 0` the bytes are `0` and NUL. -/
theorem print_int_nonneg (fuel : Nat) (buffer : Nat → Nat) (v : Int) (s : Serial)
    (hs : s.serial_started = true) (hf : 10 ≤ fuel) (h0 : 0 ≤ v) (hv : v ≤ 2147483647) :
    (∃ s1, Serial_print_int fuel buffer v s = Except.ok s1
        ∧ s1.sent = s.sent ++ decimal_ascii v.toNat ++ [0])
      ∧ (parse_decimal (decimal_ascii v.toNat) : Int) = v
      ∧ (∀ c, c ∈ decimal_ascii v.toNat → 48 ≤ c ∧ c ≤ 57)
      ∧ (v ≠ 0 → (decimal_ascii v.toNat).head? ≠ some 48)
      ∧ (∃ s1, Serial_print_int fuel buffer 0 s = Except.ok s1 ∧ s1.sent = s.sent ++ [48, 0]) := by
  have hcast : ((v.toNat : Nat) : Int) = v := Int.toNat_of_nonneg h0
  refine ⟨?_, ?_, fun c hc => decimal_ascii_chars _ c hc, ?_, ?_⟩
  · have h := print_uint_sent fuel buffer v.toNat s hs hf (by omega)
    rw [← print_int_eq_print_uint, hcast] at h
    exact h
  · rw [decimal_ascii_parse, hcast]
  · intro hne
    exact decimal_ascii_leading _ (by omega)
  · have h := print_uint_sent fuel buffer 0 s hs hf (by norm_num)
    rw [← print_int_eq_print_uint] at h
    simpa [decimal_ascii] using h

/-- C14, amended, at a concrete input: the value 1234 on a freshly started
channel. -/
theorem print_int_nonneg_witness :
    fresh_session.serial_started = true
      ∧ ∃ s1, Serial_print_int 10 (fun _ => 0) 1234 fresh_session = Except.ok s1
        ∧ s1.sent = fresh_session.sent ++ decimal_ascii (1234 : Int).toNat ++ [0] :=
  ⟨rfl, (print_int_nonneg 10 (fun _ => 0) 1234 fresh_session rfl (by decide) (by decide)
    (by decide)).1⟩

/-- C19: digit-buffer safety.  For every 32-bit signed argument of
`Serial_print_int` and every 32-bit unsigned argument of `Serial_print_uint`,
with ten loop iterations allowed, the digit loop returns with at most 10 digits
stored and the whole function returns without a fault: no index outside 0..9 of
the local buffer is written or read, and both loops terminate.  This holds
whether or not the channel is started. -/
theorem digit_buffer_safe (fuel : Nat) (buffer : Nat → Nat) (s : Serial) (hf : 10 ≤ fuel) :
    (∀ v : Int, -2147483648 ≤ v → v ≤ 2147483647 →
        (∃ b n, digits_loop fuel v buffer 0 = Except.ok (b, n) ∧ n ≤ 10)
          ∧ ∃ s1, Serial_print_int fuel buffer v s = Except.ok s1)
      ∧ (∀ v : Nat, v < 4294967296 →
        (∃ b n, digits_loop fuel (v : Int) buffer 0 = Except.ok (b, n) ∧ n ≤ 10)
          ∧ ∃ s1, Serial_print_uint fuel buffer v s = Except.ok s1) := by
  constructor
  · intro v _ hhi
    obtain ⟨b, n, h1, h2⟩ := digits_loop_returns 10 fuel v buffer 0 (by norm_num; omega) hf
      (by omega)
    refine ⟨⟨b, n, h1, by omega⟩, ?_⟩
    obtain ⟨s1, e1⟩ := emit_loop_returns b n
      (if v = 0 then Serial_write 48 s else if v < 0 then Serial_write 45 s else s) (by omega)
    exact ⟨Serial_write 0 s1, by simp only [Serial_print_int, h1, e1]⟩
  · intro v hhi
    obtain ⟨b, n, h1, h2⟩ := digits_loop_returns 10 fuel (v : Int) buffer 0
      (by norm_num; omega) hf (by omega)
    refine ⟨⟨b, n, h1, by omega⟩, ?_⟩
    obtain ⟨s1, e1⟩ := emit_loop_returns b n (if v = 0 then Serial_write 48 s else s)
      (by omega)
    exact ⟨Serial_write 0 s1, by simp only [Serial_print_uint, h1, e1]⟩

/-- C19 at a concrete input: the largest unsigned and the smallest signed value. -/
theorem digit_buffer_safe_witness :
    (10 : Nat) ≤ 10
      ∧ (∃ s1, Serial_print_int 10 (fun _ => 0) (-2147483648) fresh_session = Except.ok s1)
      ∧ (∃ s1, Serial_print_uint 10 (fun _ => 0) 4294967295 fresh_session = Except.ok s1) :=
  ⟨le_refl 10,
    ((digit_buffer_safe 10 (fun _ => 0) fresh_session (le_refl 10)).1 (-2147483648)
      (by decide) (by decide)).2,
    ((digit_buffer_safe 10 (fun _ => 0) fresh_session (le_refl 10)).2 4294967295
      (by decide)).2⟩

/-- C20: on a started channel, for every 32-bit unsigned `v`, `Serial_print_uint`
returns having handed over the decimal digits of `v`, most significant first
(characters `0` to `9` that denote `v`, with no leading zero, the single digit
`0` for `v = 0`), followed by exactly one NUL byte; and `Serial_print_int` does
the same as `Serial_print_uint` for every `v` from 0 to 2147483647. -/
theorem print_uint_decimal (fuel : Nat) (buffer : Nat → Nat) (v : Nat) (s : Serial)
    (hs : s.serial_started = true) (hf : 10 ≤ fuel) (hv : v < 4294967296) :
    (∃ s1, Serial_print_uint fuel buffer v s = Except.ok s1
        ∧ s1.sent = s.sent ++ decimal_ascii v ++ [0])
      ∧ parse_decimal (decimal_ascii v) = v
      ∧ (∀ c, c ∈ decimal_ascii v → 48 ≤ c ∧ c ≤ 57)
      ∧ (v ≠ 0 → (decimal_ascii v).head? ≠ some 48)
      ∧ decimal_ascii 0 = [48]
      ∧ (v ≤ 2147483647 →
          Serial_print_int fuel buffer (v : Int) s = Serial_print_uint fuel buffer v s) :=
  ⟨print_uint_sent fuel buffer v s hs hf (by omega), decimal_ascii_parse v,
    fun c hc => decimal_ascii_chars v c hc, decimal_ascii_leading v, rfl,
    fun _ => print_int_eq_print_uint fuel buffer v s⟩

/-- C20 at a concrete input: the largest 32-bit unsigned value. -/
theorem print_uint_decimal_witness :
    fresh_session.serial_started = true
      ∧ (∃ s1, Serial_print_uint 10 (fun _ => 0) 4294967295 fresh_session = Except.ok s1
        ∧ s1.sent = fresh_session.sent ++ decimal_ascii 4294967295 ++ [0])
      ∧ decimal_ascii 4294967295 = [52, 50, 57, 52, 57, 54, 55, 50, 57, 53] :=
  ⟨rfl, (print_uint_decimal 10 (fun _ => 0) 4294967295 fresh_session rfl (by decide)
    (by decide)).1, by norm_num [decimal_ascii]⟩

/-! ## Index invariant -/

theorem handler_index_ok (b : Nat) (s : Serial) (h : index_ok RX_BUFFER_SIZE s) :
    index_ok RX_BUFFER_SIZE (UART1_RX_IRQHandler RX_BUFFER_SIZE b s) := by
  obtain ⟨hh, ht⟩ := h
  simp only [UART1_RX_IRQHandler]
  split
  · exact ⟨hh, by simp only [RX_BUFFER_SIZE]; omega⟩
  · exact ⟨hh, ht⟩

theorem read_loop_index_ok (clk : Nat → Nat) (start : Nat) (fuel : Nat) :
    ∀ (s : Serial) (r : Int) (s1 : Serial), index_ok RX_BUFFER_SIZE s →
      Serial_read_loop RX_BUFFER_SIZE clk start fuel s = some (r, s1) →
      index_ok RX_BUFFER_SIZE s1 := by
  induction fuel with
  | zero =>
    intro s r s1 _ h
    simp [Serial_read_loop] at h
  | succ f ih =>
    intro s r s1 hok h
    obtain ⟨hh, ht⟩ := hok
    simp only [Serial_read_loop] at h
    split at h
    · split at h
      · simp only [Option.some.injEq, Prod.mk.injEq] at h
        obtain ⟨_, h2⟩ := h
        subst h2
        exact ⟨by simp only [RX_BUFFER_SIZE]; omega, ht⟩
      · refine ih _ r s1 ?_ h
        exact ⟨hh, ht⟩
    · simp only [Option.some.injEq, Prod.mk.injEq] at h
      obtain ⟨_, h2⟩ := h
      subst h2
      exact ⟨hh, ht⟩

theorem read_index_ok (clk : Nat → Nat) (fuel : Nat) (s : Serial) (r : Int) (s1 : Serial)
    (hok : index_ok RX_BUFFER_SIZE s)
    (h : Serial_read RX_BUFFER_SIZE clk fuel s = some (r, s1)) :
    index_ok RX_BUFFER_SIZE s1 := by
  unfold Serial_read at h
  split at h
  · simp only [Option.some.injEq, Prod.mk.injEq] at h
    obtain ⟨_, h2⟩ := h
    subst h2
    exact hok
  · refine read_loop_index_ok clk _ fuel _ r s1 ?_ h
    exact hok

theorem readBytes_loop_index_ok (clk : Nat → Nat) (fuel len : Nat) (n : Nat) :
    ∀ (i : Nat) (data : Nat → Nat) (s : Serial) (r : Int) (s1 : Serial) (d1 : Nat → Nat),
      index_ok RX_BUFFER_SIZE s →
      Serial_readBytes_loop RX_BUFFER_SIZE clk fuel len n i data s = some (r, s1, d1) →
      index_ok RX_BUFFER_SIZE s1 := by
  induction n with
  | zero =>
    intro i data s r s1 d1 hok h
    simp only [Serial_readBytes_loop, Option.some.injEq, Prod.mk.injEq] at h
    obtain ⟨_, h2, _⟩ := h
    subst h2
    exact hok
  | succ n ih =>
    intro i data s r s1 d1 hok h
    simp only [Serial_readBytes_loop] at h
    split at h
    · exact absurd h (by simp)
    · rename_i r0 s0 hr
      have hok0 := read_index_ok clk fuel s r0 s0 hok hr
      split at h
      · simp only [Option.some.injEq, Prod.mk.injEq] at h
        obtain ⟨_, h2, _⟩ := h
        subst h2
        exact hok0
      · exact ih _ _ _ _ _ _ hok0 h

theorem readBytesUntil_loop_index_ok (clk : Nat → Nat) (fuel len character : Nat) (n : Nat) :
    ∀ (i : Nat) (data : Nat → Nat) (s : Serial) (r : Int) (s1 : Serial) (d1 : Nat → Nat),
      index_ok RX_BUFFER_SIZE s →
      Serial_readBytesUntil_loop RX_BUFFER_SIZE clk fuel len character n i data s
        = some (r, s1, d1) →
      index_ok RX_BUFFER_SIZE s1 := by
  induction n with
  | zero =>
    intro i data s r s1 d1 hok h
    simp only [Serial_readBytesUntil_loop, Option.some.injEq, Prod.mk.injEq] at h
    obtain ⟨_, h2, _⟩ := h
    subst h2
    exact hok
  | succ n ih =>
    intro i data s r s1 d1 hok h
    simp only [Serial_readBytesUntil_loop] at h
    split at h
    · exact absurd h (by simp)
    · rename_i r0 s0 hr
      have hok0 := read_index_ok clk fuel s r0 s0 hok hr
      split at h
      · simp only [Option.some.injEq, Prod.mk.injEq] at h
        obtain ⟨_, h2, _⟩ := h
        subst h2
        exact hok0
      · split at h
        · simp only [Option.some.injEq, Prod.mk.injEq] at h
          obtain ⟨_, h2, _⟩ := h
          subst h2
          exact hok0
        · exact ih _ _ _ _ _ _ hok0 h

theorem readStringUntil_loop_index_ok (char_signed : Bool) (clk : Nat → Nat)
    (fuel len character : Nat) (n : Nat) :
    ∀ (i : Nat) (str : Nat → Nat) (s : Serial) (r : Int) (s1 : Serial) (d1 : Nat → Nat),
      index_ok RX_BUFFER_SIZE s →
      Serial_readStringUntil_loop char_signed RX_BUFFER_SIZE clk fuel len character n i str s
        = some (r, s1, d1) →
      index_ok RX_BUFFER_SIZE s1 := by
  induction n with
  | zero =>
    intro i str s r s1 d1 hok h
    simp only [Serial_readStringUntil_loop, Option.some.injEq, Prod.mk.injEq] at h
    obtain ⟨_, h2, _⟩ := h
    subst h2
    exact hok
  | succ n ih =>
    intro i str s r s1 d1 hok h
    simp only [Serial_readStringUntil_loop] at h
    split at h
    · exact absurd h (by simp)
    · rename_i r0 s0 hr
      have hok0 := read_index_ok clk fuel s r0 s0 hok hr
      split at h
      · simp only [Option.some.injEq, Prod.mk.injEq] at h
        obtain ⟨_, h2, _⟩ := h
        subst h2
        exact hok0
      · split at h
        · simp only [Option.some.injEq, Prod.mk.injEq] at h
          obtain ⟨_, h2, _⟩ := h
          subst h2
          exact hok0
        · exact ih _ _ _ _ _ _ hok0 h

/-- C18: the index invariant at capacity 128.  `head` and `tail` are below 128 in
the initial state, and from any state in which they are, they still are after
the receive handler, after `Serial_read`, `Serial_readBytes`,
`Serial_readBytesUntil`, `Serial_readString` and `Serial_readStringUntil`
(whatever they return), and after `Serial_begin`, `Serial_begin_custom`,
`Serial_end` and `Serial_setTimeout`.  The slots the code accesses are
`rx_buffer[head]` (in `Serial_read`) and `rx_buffer[tail]` (in the handler) of
such a state, hence inside the 128-element array. -/
theorem index_invariant (s : Serial) (h : index_ok RX_BUFFER_SIZE s) :
    index_ok RX_BUFFER_SIZE Serial.init
      ∧ (∀ b, index_ok RX_BUFFER_SIZE (UART1_RX_IRQHandler RX_BUFFER_SIZE b s))
      ∧ (∀ clk fuel r s1, Serial_read RX_BUFFER_SIZE clk fuel s = some (r, s1) →
          index_ok RX_BUFFER_SIZE s1)
      ∧ (∀ clk fuel data len r s1 d1,
          Serial_readBytes RX_BUFFER_SIZE clk fuel data len s = some (r, s1, d1) →
          index_ok RX_BUFFER_SIZE s1)
      ∧ (∀ clk fuel data len character r s1 d1,
          Serial_readBytesUntil RX_BUFFER_SIZE clk fuel data len character s = some (r, s1, d1) →
          index_ok RX_BUFFER_SIZE s1)
      ∧ (∀ clk fuel str len r s1 d1,
          Serial_readString RX_BUFFER_SIZE clk fuel str len s = some (r, s1, d1) →
          index_ok RX_BUFFER_SIZE s1)
      ∧ (∀ char_signed clk fuel str len character r s1 d1,
          Serial_readStringUntil char_signed RX_BUFFER_SIZE clk fuel str len character s
            = some (r, s1, d1) →
          index_ok RX_BUFFER_SIZE s1)
      ∧ (∀ baudRate, index_ok RX_BUFFER_SIZE (Serial_begin baudRate s))
      ∧ (∀ baudRate wordLength stopBits parity,
          index_ok RX_BUFFER_SIZE (Serial_begin_custom baudRate wordLength stopBits parity s))
      ∧ index_ok RX_BUFFER_SIZE (Serial_end s)
      ∧ (∀ timeout, index_ok RX_BUFFER_SIZE (Serial_setTimeout timeout s))
      ∧ s.rx_buffer_head < RX_BUFFER_SIZE ∧ s.rx_buffer_tail < RX_BUFFER_SIZE := by
  have hbu : ∀ clk fuel data len character r s1 d1,
      Serial_readBytesUntil RX_BUFFER_SIZE clk fuel data len character s = some (r, s1, d1) →
      index_ok RX_BUFFER_SIZE s1 := by
    intro clk fuel data len character r s1 d1 hr
    unfold Serial_readBytesUntil at hr
    split at hr
    · simp only [Option.some.injEq, Prod.mk.injEq] at hr
      obtain ⟨_, h2, _⟩ := hr
      subst h2
      exact h
    · exact readBytesUntil_loop_index_ok clk fuel len character len 0 data s r s1 d1 h hr
  refine ⟨by decide, fun b => handler_index_ok b s h,
    fun clk fuel r s1 hr => read_index_ok clk fuel s r s1 h hr, ?_, hbu, ?_, ?_, ?_, ?_, ?_,
    fun _ => h, h.1, h.2⟩
  · intro clk fuel data len r s1 d1 hr
    unfold Serial_readBytes at hr
    split at hr
    · simp only [Option.some.injEq, Prod.mk.injEq] at hr
      obtain ⟨_, h2, _⟩ := hr
      subst h2
      exact h
    · exact readBytes_loop_index_ok clk fuel len len 0 data s r s1 d1 h hr
  · intro clk fuel str len r s1 d1 hr
    exact hbu clk fuel str len 0 r s1 d1 hr
  · intro char_signed clk fuel str len character r s1 d1 hr
    unfold Serial_readStringUntil at hr
    split at hr
    · simp only [Option.some.injEq, Prod.mk.injEq] at hr
      obtain ⟨_, h2, _⟩ := hr
      subst h2
      exact h
    · exact readStringUntil_loop_index_ok char_signed clk fuel len character len 0 str s r s1
        d1 h hr
  · intro baudRate
    unfold Serial_begin
    rw [begin_custom_fields]
    exact h
  · intro baudRate wordLength stopBits parity
    rw [begin_custom_fields]
    exact h
  · rw [end_fields]
    exact h

/-- C18 at a concrete input: the channel holding one unread byte; the handler, a
read that returns the byte and a restart keep both indices below 128. -/
theorem index_invariant_witness :
    index_ok RX_BUFFER_SIZE stale_session
      ∧ index_ok RX_BUFFER_SIZE (UART1_RX_IRQHandler RX_BUFFER_SIZE 66 stale_session)
      ∧ Serial_read RX_BUFFER_SIZE tick_clock 1 stale_session
          = some (65, popped RX_BUFFER_SIZE stale_session)
      ∧ index_ok RX_BUFFER_SIZE (popped RX_BUFFER_SIZE stale_session)
      ∧ index_ok RX_BUFFER_SIZE (Serial_begin 9600 stale_session) :=
  ⟨by decide,
    (index_invariant stale_session (by decide)).2.1 66,
    read_pop tick_clock 0 RX_BUFFER_SIZE stale_session rfl (by decide) (by decide),
    (index_invariant stale_session (by decide)).2.2.1 tick_clock 1 65
      (popped RX_BUFFER_SIZE stale_session)
      (read_pop tick_clock 0 RX_BUFFER_SIZE stale_session rfl (by decide) (by decide)),
    (index_invariant stale_session (by decide)).2.2.2.2.2.2.2.1 9600⟩

end STM8sSerial
